import Mathlib

/-
Verification development for the immer draft/scope/finalize/patch engine
(src/src/immer.js).  The repository ships only `immer.js`; the helper modules
it imports (`common.js`, `scope.js`, `proxy.js`, `es5.js`, `patches.js`) are
not part of the sources.  Definitions below are translated from `immer.js`
directly; the few spots whose behaviour lives in the missing modules are
modelled from the specification and marked with a doc comment starting
`Modelled from the spec:`.

The embedding is a shallow one:
* JavaScript values are trees of `DNode`; object identity (`===`) is modelled
  by a numeric id carried on every object node, so two nodes denote the same
  runtime object exactly when their ids coincide.
* A draft together with its `DraftState` bookkeeping is a `DNode.draft` node
  carrying `base`, `modified`, the lazily created `copy` (its fields and the
  id of the copy object), the `assigned` map, and the owning scope id.
* Mutable effects of one update (patch accumulators, `canAutoFreeze`, the
  revocation flag, the `onAssign`/`onDelete`/`onCopy` hook calls and the
  patch-listener invocations) are threaded explicitly through an `Effects`
  record.
* The recursive finalizer is written with an explicit fuel argument; running
  out of fuel yields the artificial error `ImmerErr.outOfFuel`, which no real
  execution produces (every theorem either supplies enough fuel or is stated
  conditionally on a successful run).
-/

namespace Immer

/-- Scalar (non-draftable) JavaScript values, including `undefined` and the
`NOTHING` sentinel exported by `common.js` (a unique symbol; modelled as its
own scalar constructor, equal only to itself, which is all `immer.js` uses). -/
inductive JSPrim where
  | undef
  | nothing
  | num (n : Int)
  | str (s : String)
  | boolean (b : Bool)
deriving DecidableEq, Repr

/-- A JavaScript value as seen during finalization.  `obj id frozen fields`
is a plain object (draftable); the `id` models reference identity and
`frozen` models `Object.isFrozen`.  `draft` is a proxy draft together with
its `DraftState` (immer.js uses `draft[DRAFT_STATE]`): state id (identity of
the proxy object), owning scope id, the `customDraft` and `finalized` marks,
`modified`, the original `base`, the identity and fields of the shallow
`copy` (present iff `modified`, spec invariant 1) and the `assigned` map.
Sequences are treated like key-addressed mappings here; the claims under
verification only exercise mappings and scalars. -/
inductive DNode where
  | prim (p : JSPrim)
  | obj (id : Nat) (frozen : Bool) (fields : List (String × DNode))
  | draft (stId : Nat) (scopeId : Nat) (customDraft : Bool) (finalized : Bool)
      (modified : Bool) (base : DNode) (copyId : Nat)
      (copyFields : List (String × DNode)) (assigned : List (String × Bool))

/-- Patch operations, from the patch wire format. -/
inductive PatchOp where
  | add
  | replace
  | remove
deriving DecidableEq, Repr

/-- A single patch `{op, path, value?}`. -/
structure Patch where
  op : PatchOp
  path : List String
  value : Option DNode

/-- The observable side effects of one update: whether patch recording is
active (`scope.patches` installed by `scope.usePatches`), the accumulated
forward and inverse patches, the `scope.canAutoFreeze` flag, whether the
scope has been revoked, the recorded `onAssign`/`onDelete`/`onCopy` hook
invocations, and the calls made to the patch listener. -/
structure Effects where
  patchesOn : Bool := false
  patches : List Patch := []
  inversePatches : List Patch := []
  canAutoFreeze : Bool := true
  revoked : Bool := false
  assignLog : List (Nat × String × DNode) := []
  deleteLog : List (Nat × String) := []
  copyLog : List Nat := []
  listenerCalls : List (List Patch × List Patch) := []

/-- Immer configuration: `autoFreeze` plus whether each lifecycle hook is
installed.  `useProxies` is fixed to the modern proxy backend, which the
spec designates as the canonical one (the ES5 backend is out of scope). -/
structure Config where
  autoFreeze : Bool
  useOnAssign : Bool
  useOnDelete : Bool
  useOnCopy : Bool

/-- Error outcomes of an update.  `thrown` re-raises a recipe exception;
`outOfFuel` is an artifact of the fuel-indexed recursion only. -/
inductive ImmerErr where
  | outOfFuel
  | cyclicReference
  | doubleReturn
  | notADraft
  | notCustomDraft
  | alreadyFinalized
  | revokedDraft
  | invalidCreateDraftArg
  | thrown (e : JSPrim)
deriving DecidableEq, Repr

/-- common.js `isDraftable` (only plain objects, arrays and immerable
classes are drafted; a draft proxy presents as a plain object, hence is
draftable too).  Scalars are opaque. -/
def isDraftable : DNode → Bool
  | DNode.prim _ => false
  | DNode.obj _ _ _ => true
  | DNode.draft _ _ _ _ _ _ _ _ _ => true

/-- common.js `isDraft`: does the value carry a `DRAFT_STATE`. -/
def isDraft : DNode → Bool
  | DNode.draft _ _ _ _ _ _ _ _ _ => true
  | _ => false

/-- Test for the JavaScript `undefined` value. -/
def isUndef : DNode → Bool
  | DNode.prim JSPrim.undef => true
  | _ => false

/-- Test for the `NOTHING` sentinel. -/
def isNothing : DNode → Bool
  | DNode.prim JSPrim.nothing => true
  | _ => false

/-- `Object.isFrozen`.  Primitives count as frozen (ES2015); a draft proxy
wraps a non-frozen target. -/
def isFrozenNode : DNode → Bool
  | DNode.prim _ => true
  | DNode.obj _ fr _ => fr
  | DNode.draft _ _ _ _ _ _ _ _ _ => false

/-- Reference identity `===` (and `Object.is` on the values the model
covers): scalars compare by value, objects by id, drafts by state id (a
draft proxy is in 1:1 correspondence with its DraftState). -/
def jsIs : DNode → DNode → Bool
  | DNode.prim a, DNode.prim b => a == b
  | DNode.obj i _ _, DNode.obj j _ _ => i == j
  | DNode.draft i _ _ _ _ _ _ _ _, DNode.draft j _ _ _ _ _ _ _ _ => i == j
  | _, _ => false

/-- Is `v` the very object whose id is `pid` (the `value === parent` test of
`finalizeProperty`; a parent there is always a plain object or a copy). -/
def isSameRef (v : DNode) (pid : Nat) : Bool :=
  match v with
  | DNode.obj i _ _ => i == pid
  | _ => false

/-- Field lookup in an object's field list (property access). -/
def lookupF (fs : List (String × DNode)) (k : String) : Option DNode :=
  (fs.find? (fun e => e.1 == k)).map (fun e => e.2)

/-- Lookup in an `assigned` map. -/
def lookupAssigned (asg : List (String × Bool)) (k : String) : Option Bool :=
  (asg.find? (fun e => e.1 == k)).map (fun e => e.2)

/-- Fields of a base value (empty for non-objects). -/
def baseFieldsOf : DNode → List (String × DNode)
  | DNode.obj _ _ fs => fs
  | _ => []

/-- `state.base[prop]`: a missing property reads as `undefined`. -/
def baseProp (b : DNode) (k : String) : DNode :=
  (lookupF (baseFieldsOf b) k).getD (DNode.prim JSPrim.undef)

/-- `state.modified` of a draft (false for non-drafts). -/
def draftModified : DNode → Bool
  | DNode.draft _ _ _ _ m _ _ _ _ => m
  | _ => false

/-- `state.base` of a draft (identity for non-drafts, unused there). -/
def draftBase : DNode → DNode
  | DNode.draft _ _ _ _ _ b _ _ _ => b
  | v => v

/-- Bookkeeping of the DraftState consulted by `finalizeTree` for the
direct properties of the draft being finalized. -/
structure StInfo where
  stId : Nat
  base : DNode
  assigned : List (String × Bool)

/-- Modelled from the spec: the forward patch `generatePatches` (absent
`patches.js`, spec section 4.4 Mapping rule) records for one entry of the
`assigned` map: `add` if the key is absent from `base`, else `replace`,
with the new (finalized copy) value, at the node's path extended by that
key; an entry marked deleted records `remove`. -/
def patchForKey (st : StInfo) (copyFields : List (String × DNode))
    (basePath : List String) (e : String × Bool) : Patch :=
  match lookupF (baseFieldsOf st.base) e.1 with
  | some _ =>
    if e.2 then ⟨PatchOp.replace, basePath ++ [e.1], lookupF copyFields e.1⟩
    else ⟨PatchOp.remove, basePath ++ [e.1], none⟩
  | none =>
    if e.2 then ⟨PatchOp.add, basePath ++ [e.1], lookupF copyFields e.1⟩
    else ⟨PatchOp.remove, basePath ++ [e.1], none⟩

/-- Modelled from the spec: the inverse patch for one `assigned` entry
(spec section 4.4): `replace` with the old value if the key was present in
`base`, else `remove`; for a deletion, `add` restoring the base value. -/
def inversePatchForKey (st : StInfo) (basePath : List String)
    (e : String × Bool) : Patch :=
  match lookupF (baseFieldsOf st.base) e.1 with
  | some oldv =>
    if e.2 then ⟨PatchOp.replace, basePath ++ [e.1], some oldv⟩
    else ⟨PatchOp.add, basePath ++ [e.1], some oldv⟩
  | none =>
    if e.2 then ⟨PatchOp.remove, basePath ++ [e.1], none⟩
    else ⟨PatchOp.add, basePath ++ [e.1], none⟩

/-- Modelled from the spec: `generatePatches` lives in the absent
`patches.js`; this is the Mapping rule of spec section 4.4.  For every
entry of the `assigned` map, one forward and one inverse patch (see
`patchForKey` and `inversePatchForKey`) are appended to the scope's
accumulators; keys absent from `assigned` are skipped. -/
def genPatchesMap (st : StInfo) (copyFields : List (String × DNode))
    (basePath : List String) (eff : Effects) : Effects :=
  let pr := st.assigned.foldl
    (fun (acc : List Patch × List Patch) (e : String × Bool) =>
      (acc.1 ++ [patchForKey st copyFields basePath e],
       acc.2 ++ [inversePatchForKey st basePath e]))
    (eff.patches, eff.inversePatches)
  {eff with patches := pr.1, inversePatches := pr.2}

/-- The `onAssign` hook invocation guard of `finalizeProperty` (lines
273-275): fires only for direct draft properties (`stOpt` present), only
when the property's value actually changed (`fire`), and only when the hook
is installed. -/
def applyAssignHook (cfg : Config) (stOpt : Option StInfo) (prop : String)
    (v2 : DNode) (fire : Bool) (eff2 : Effects) : Effects :=
  match stOpt with
  | some st =>
    if fire && cfg.useOnAssign then
      {eff2 with assignLog := eff2.assignLog ++ [(st.stId, prop, v2)]}
    else eff2
  | none => eff2

/-- The tail of `finalize` for a modified draft, after its tree has been
walked (lines 181-214): `onDelete` over the `assigned` map, `onCopy`,
auto-freezing of the copy unless a foreign draft disabled it, and patch
generation for this node when a path is active.  Input `pr` is the
finalized copy fields together with the effects after the walk; output is
the finalized copy object and the final effects. -/
def finalizeWrap (cfg : Config) (stId : Nat) (base : DNode)
    (assigned : List (String × Bool)) (copyId : Nat) (path : Option (List String))
    (pr : List (String × DNode) × Effects) : DNode × Effects :=
  let eff3 :=
    if cfg.useOnDelete then
      {pr.2 with deleteLog := pr.2.deleteLog ++
        assigned.filterMap (fun e => if e.2 then none else some (stId, e.1))}
    else pr.2
  let eff4 := if cfg.useOnCopy then {eff3 with copyLog := eff3.copyLog ++ [stId]} else eff3
  let fr2 := cfg.autoFreeze && eff4.canAutoFreeze
  let eff5 :=
    match path with
    | some pth =>
      if eff4.patchesOn then genPatchesMap ⟨stId, base, assigned⟩ pr.1 pth eff4 else eff4
    | none => eff4
  (DNode.obj copyId fr2 pr.1, eff5)

mutual

/-- immer.js `Immer.finalize` (lines 164-215).  Returns either the
unmodified base, the draft itself for a foreign scope, or the finalized
copy; threads the effect record.  `path = none` models a `null` path. -/
def finalize (cfg : Config) (sid : Nat) (fuel : Nat) (d : DNode)
    (path : Option (List String)) (eff : Effects) :
    Except ImmerErr (DNode × Effects) :=
  match fuel, d with
  | 0, _ => Except.error ImmerErr.outOfFuel
  | _ + 1, DNode.prim q => Except.ok (DNode.prim q, eff)
  | fuel' + 1, DNode.obj i fr fs =>
    -- no DRAFT_STATE: frozen values are returned as-is, anything else is
    -- scanned for embedded drafts (lines 166-169)
    if fr then Except.ok (DNode.obj i fr fs, eff)
    else
      match finalizeTree cfg sid fuel' none i [] false fs eff with
      | Except.error e => Except.error e
      | Except.ok (fs2, eff2) => Except.ok (DNode.obj i fr fs2, eff2)
  | fuel' + 1, DNode.draft stId scp custom fin modif base copyId copyFields assigned =>
    -- never finalize drafts owned by another scope (lines 170-173)
    if scp != sid then
      Except.ok (DNode.draft stId scp custom fin modif base copyId copyFields assigned, eff)
    -- structural sharing: unmodified drafts finalize to their base (174-176)
    else if !modif then Except.ok (base, eff)
    -- memoized via `finalized` (177, 214): an already-finalized state just
    -- returns its copy (the tree model carries no aliasing between drafts,
    -- so this branch is only reachable when a caller hands in a draft whose
    -- state was already marked finalized; its stored copy is returned)
    else if fin then Except.ok (DNode.obj copyId false copyFields, eff)
    else
      match finalizeTree cfg sid fuel' (some ⟨stId, base, assigned⟩) copyId
          (path.getD []) (path.isSome && eff.patchesOn) copyFields eff with
      | Except.error e => Except.error e
      | Except.ok pr => Except.ok (finalizeWrap cfg stId base assigned copyId path pr)

/-- immer.js `Immer.finalizeTree` (lines 220-280): the `finalizeProperty`
loop over the fields of `root` (the copy of a draft when `stOpt` is `some`,
a plain object under scan when `stOpt` is `none`).  `parentId` is the
identity of `root` itself, used for the `value === parent` cycle check;
`needPatches` is `!!rootPath && !!scope.patches`. -/
def finalizeTree (cfg : Config) (sid : Nat) (fuel : Nat) (stOpt : Option StInfo)
    (parentId : Nat) (rootPath : List String) (needPatches : Bool)
    (fields : List (String × DNode)) (eff : Effects) :
    Except ImmerErr (List (String × DNode) × Effects) :=
  match fuel, fields with
  | 0, _ => Except.error ImmerErr.outOfFuel
  | _ + 1, [] => Except.ok ([], eff)
  | fuel' + 1, (prop, value) :: rest =>
    -- `value === parent` is a fatal cycle (lines 233-235)
    if isSameRef value parentId then Except.error ImmerErr.cyclicReference
    else
      match finalizeStep cfg sid fuel' stOpt rootPath needPatches prop value eff with
      | Except.error e => Except.error e
      | Except.ok (v2, eff2, fire) =>
        match finalizeTree cfg sid fuel' stOpt parentId rootPath needPatches rest
            (applyAssignHook cfg stOpt prop v2 fire eff2) with
        | Except.error e => Except.error e
        | Except.ok (rest2, eff4) => Except.ok ((prop, v2) :: rest2, eff4)

/-- The body of `finalizeProperty` for one property (after the cycle check,
before the `onAssign` hook): the finalized replacement value, the updated
effects and whether `onAssign` should fire for this property. -/
def finalizeStep (cfg : Config) (sid : Nat) (fuel : Nat) (stOpt : Option StInfo)
    (rootPath : List String) (needPatches : Bool) (prop : String) (value : DNode)
    (eff : Effects) : Except ImmerErr (DNode × Effects × Bool) :=
  match fuel with
  | 0 => Except.error ImmerErr.outOfFuel
  | fuel' + 1 =>
    if isDraft value then
      -- drafts owned by this scope are finalized here (240-259); the child
      -- path is extended only when the key was not explicitly assigned
      -- (241-244), and a draft that survives finalization belongs to a
      -- foreign scope and disables auto-freezing (249-252)
      let childPath : Option (List String) :=
        match stOpt with
        | some st =>
          if needPatches && !((lookupAssigned st.assigned prop).getD false) then
            some (rootPath ++ [prop])
          else none
        | none => none
      match finalize cfg sid fuel' value childPath eff with
      | Except.error e => Except.error e
      | Except.ok (v1, eff1) =>
        let eff2 := if isDraft v1 then {eff1 with canAutoFreeze := false} else eff1
        match stOpt with
        | some st =>
          -- unchanged drafts are never passed to onAssign (261-262)
          if jsIs v1 (baseProp st.base prop) then Except.ok (v1, eff2, false)
          else Except.ok (v1, eff2, true)
        | none => Except.ok (v1, eff2, true)
    else
      match stOpt with
      | some st =>
        -- unchanged draft properties are ignored (264-267)
        if jsIs value (baseProp st.base prop) then Except.ok (value, eff, false)
        else finalizeScan cfg sid fuel' value eff
      | none => finalizeScan cfg sid fuel' value eff

/-- The tail of `finalizeProperty` for non-draft values: new draftable,
non-frozen objects are searched for unfinalized drafts via
`each(value, finalizeProperty)` (lines 268-271); everything else is kept. -/
def finalizeScan (cfg : Config) (sid : Nat) (fuel : Nat) (value : DNode)
    (eff : Effects) : Except ImmerErr (DNode × Effects × Bool) :=
  match fuel, value with
  | 0, _ => Except.error ImmerErr.outOfFuel
  | fuel' + 1, DNode.obj i fr fs =>
    if fr then Except.ok (DNode.obj i fr fs, eff, true)
    else
      match finalizeTree cfg sid fuel' none i [] false fs eff with
      | Except.error e => Except.error e
      | Except.ok (fs2, eff2) => Except.ok (DNode.obj i fr fs2, eff2, true)
  | _ + 1, v => Except.ok (v, eff, true)

end

/-- The tail of `processResult` (lines 153-157): `scope.revoke()`, then the
patch listener is invoked when patch recording is active, and `NOTHING` is
mapped to `undefined`. -/
def finishUp (r : DNode) (eff : Effects) : Except ImmerErr DNode × Effects :=
  let eff1 := {eff with revoked := true}
  let eff2 :=
    if eff1.patchesOn then
      {eff1 with listenerCalls := eff1.listenerCalls ++ [(eff1.patches, eff1.inversePatches)]}
    else eff1
  (Except.ok (if isNothing r then DNode.prim JSPrim.undef else r), eff2)

/-- immer.js `Immer.processResult` (lines 124-158).  `rootDraft` is
`scope.drafts[0]`, the root draft as it stands after the recipe ran;
`result` is the recipe's return value.  `willFinalize` is a no-op in the
proxy backend and is omitted.  On an error raised inside `finalize` the
entry effects are returned unchanged (in particular the scope is not
revoked there, matching the source, where only the double-return branch
revokes explicitly). -/
def processResult (cfg : Config) (sid : Nat) (fuel : Nat) (rootDraft : DNode)
    (result : DNode) (eff : Effects) : Except ImmerErr DNode × Effects :=
  let isReplaced := !(isUndef result) && !(jsIs result rootDraft)
  if isReplaced then
    if draftModified rootDraft then
      -- a producer returned a new value *and* modified its draft (129-132)
      (Except.error ImmerErr.doubleReturn, {eff with revoked := true})
    else
      match (if isDraftable result then finalize cfg sid fuel result none eff
             else Except.ok (result, eff)) with
      | Except.error e => (Except.error e, eff)
      | Except.ok (r, eff1) =>
        -- whole-value replacement patches at the root path (137-148)
        let eff2 :=
          if eff1.patchesOn then
            {eff1 with
              patches := eff1.patches ++ [⟨PatchOp.replace, [], some r⟩],
              inversePatches :=
                eff1.inversePatches ++ [⟨PatchOp.replace, [], some (draftBase rootDraft)⟩]}
          else eff1
        finishUp r eff2
  else
    -- finalize the base draft with the empty root path (149-152)
    match finalize cfg sid fuel rootDraft (some []) eff with
    | Except.error e => (Except.error e, eff)
    | Except.ok (r, eff1) => finishUp r eff1

/-- immer.js `Immer.produce`, draftable branch (lines 57-82 for a
synchronous recipe, 69-79 for an asynchronous one).  The recipe's run is
abstracted into the root draft as it stands afterwards (`rootAfter`, with
all mutations recorded in its DraftState) together with its `outcome`: a
returned value, or a raised exception / rejected future.  On failure the
scope is revoked and the exception re-raised (66, 75-78); `usePatches` is
installed only on the success path (72, 81), so a failing update never
emits patches. -/
def produceDraftable (cfg : Config) (sid : Nat) (fuel : Nat) (rootAfter : DNode)
    (outcome : Except JSPrim DNode) (hasListener : Bool) :
    Except ImmerErr DNode × Effects :=
  match outcome with
  | Except.error e => (Except.error (ImmerErr.thrown e), {revoked := true})
  | Except.ok result => processResult cfg sid fuel rootAfter result {patchesOn := hasListener}

/-- immer.js `Immer.produce`, non-draftable branch (lines 83-87): no scope
and no draft are created, the recipe is invoked directly on the base;
`undefined` means keep the base, the `NOTHING` sentinel maps to
`undefined`, any other value is returned as-is. -/
def produceRaw (base : DNode) (recipe : DNode → Except JSPrim DNode) :
    Except ImmerErr DNode :=
  match recipe base with
  | Except.error e => Except.error (ImmerErr.thrown e)
  | Except.ok r =>
    if isUndef r then Except.ok base
    else if isNothing r then Except.ok (DNode.prim JSPrim.undef)
    else Except.ok r

/-- immer.js `Immer.createDraft` (lines 89-96): rejects non-draftable
bases, otherwise wraps the base in a fresh unmodified draft marked with
`customDraft`; the scope is left (not revoked). -/
def createDraft (sid : Nat) (stId : Nat) (copyId : Nat) (base : DNode) :
    Except ImmerErr DNode :=
  if isDraftable base then
    Except.ok (DNode.draft stId sid true false false base copyId [] [])
  else Except.error ImmerErr.invalidCreateDraftArg

/-- immer.js `Immer.finishDraft` (lines 97-107).  `scopeRevoked` says
whether the draft's owning scope has already been revoked (which a previous
successful `finishDraft` of the same draft does, via `processResult`).
Modelled from the spec: the proxy revocation machinery lives in the absent
`scope.js`/`proxy.js`; per spec section 3 a draft "is not usable once its
scope is revoked", so the `isDraft` probe (line 98), which reads
`draft[DRAFT_STATE]` through the proxy, fails on a revoked draft — modelled
as the `revokedDraft` error.  Otherwise the checks follow lines 98-101 in
source order, and the draft is processed exactly like a recipe that
returned `undefined` (lines 104-106). -/
def finishDraft (cfg : Config) (fuel : Nat) (v : DNode) (scopeRevoked : Bool)
    (hasListener : Bool) : Except ImmerErr DNode × Effects :=
  match v with
  | DNode.draft stId scp custom fin modif base copyId cf asg =>
    if scopeRevoked then (Except.error ImmerErr.revokedDraft, {})
    else if !custom then (Except.error ImmerErr.notCustomDraft, {})
    else if fin then (Except.error ImmerErr.alreadyFinalized, {})
    else
      processResult cfg scp fuel (DNode.draft stId scp custom fin modif base copyId cf asg)
        (DNode.prim JSPrim.undef) {patchesOn := hasListener}
  | _ => (Except.error ImmerErr.notADraft, {})

/-- The effect fields the finalizer never touches: patch recording stays
installed or not, the scope is never revoked mid-finalize, the listener is
never invoked mid-finalize, and `canAutoFreeze` is only ever cleared, never
set back. -/
def stablePart (a b : Effects) : Prop :=
  b.patchesOn = a.patchesOn ∧ b.revoked = a.revoked ∧ b.listenerCalls = a.listenerCalls ∧
  (a.canAutoFreeze = false → b.canAutoFreeze = false)

lemma stablePart_refl (a : Effects) : stablePart a a := ⟨rfl, rfl, rfl, id⟩

lemma stablePart_trans {a b c : Effects} (h1 : stablePart a b) (h2 : stablePart b c) :
    stablePart a c :=
  ⟨h2.1.trans h1.1, h2.2.1.trans h1.2.1, h2.2.2.1.trans h1.2.2.1,
   fun h => h2.2.2.2 (h1.2.2.2 h)⟩

@[simp] lemma genPatchesMap_patchesOn (st : StInfo) (cf : List (String × DNode))
    (bp : List String) (eff : Effects) : (genPatchesMap st cf bp eff).patchesOn = eff.patchesOn := rfl

@[simp] lemma genPatchesMap_revoked (st : StInfo) (cf : List (String × DNode))
    (bp : List String) (eff : Effects) : (genPatchesMap st cf bp eff).revoked = eff.revoked := rfl

@[simp] lemma genPatchesMap_listenerCalls (st : StInfo) (cf : List (String × DNode))
    (bp : List String) (eff : Effects) :
    (genPatchesMap st cf bp eff).listenerCalls = eff.listenerCalls := rfl

@[simp] lemma genPatchesMap_canAutoFreeze (st : StInfo) (cf : List (String × DNode))
    (bp : List String) (eff : Effects) :
    (genPatchesMap st cf bp eff).canAutoFreeze = eff.canAutoFreeze := rfl

@[simp] lemma genPatchesMap_assignLog (st : StInfo) (cf : List (String × DNode))
    (bp : List String) (eff : Effects) : (genPatchesMap st cf bp eff).assignLog = eff.assignLog := rfl

@[simp] lemma applyAssignHook_patchesOn (cfg : Config) (stOpt : Option StInfo)
    (prop : String) (v2 : DNode) (fire : Bool) (e : Effects) :
    (applyAssignHook cfg stOpt prop v2 fire e).patchesOn = e.patchesOn := by
  cases stOpt <;> simp only [applyAssignHook] <;> (try split) <;> rfl

@[simp] lemma applyAssignHook_revoked (cfg : Config) (stOpt : Option StInfo)
    (prop : String) (v2 : DNode) (fire : Bool) (e : Effects) :
    (applyAssignHook cfg stOpt prop v2 fire e).revoked = e.revoked := by
  cases stOpt <;> simp only [applyAssignHook] <;> (try split) <;> rfl

@[simp] lemma applyAssignHook_listenerCalls (cfg : Config) (stOpt : Option StInfo)
    (prop : String) (v2 : DNode) (fire : Bool) (e : Effects) :
    (applyAssignHook cfg stOpt prop v2 fire e).listenerCalls = e.listenerCalls := by
  cases stOpt <;> simp only [applyAssignHook] <;> (try split) <;> rfl

@[simp] lemma applyAssignHook_canAutoFreeze (cfg : Config) (stOpt : Option StInfo)
    (prop : String) (v2 : DNode) (fire : Bool) (e : Effects) :
    (applyAssignHook cfg stOpt prop v2 fire e).canAutoFreeze = e.canAutoFreeze := by
  cases stOpt <;> simp only [applyAssignHook] <;> (try split) <;> rfl

@[simp] lemma applyAssignHook_patches (cfg : Config) (stOpt : Option StInfo)
    (prop : String) (v2 : DNode) (fire : Bool) (e : Effects) :
    (applyAssignHook cfg stOpt prop v2 fire e).patches = e.patches := by
  cases stOpt <;> simp only [applyAssignHook] <;> (try split) <;> rfl

@[simp] lemma applyAssignHook_inversePatches (cfg : Config) (stOpt : Option StInfo)
    (prop : String) (v2 : DNode) (fire : Bool) (e : Effects) :
    (applyAssignHook cfg stOpt prop v2 fire e).inversePatches = e.inversePatches := by
  cases stOpt <;> simp only [applyAssignHook] <;> (try split) <;> rfl

lemma applyAssignHook_stable (cfg : Config) (stOpt : Option StInfo)
    (prop : String) (v2 : DNode) (fire : Bool) (e : Effects) :
    stablePart e (applyAssignHook cfg stOpt prop v2 fire e) :=
  ⟨by simp, by simp, by simp, fun h => by simp [h]⟩

@[simp] lemma finalizeWrap_patchesOn (cfg : Config) (stId : Nat) (base : DNode)
    (asg : List (String × Bool)) (copyId : Nat) (path : Option (List String))
    (pr : List (String × DNode) × Effects) :
    (finalizeWrap cfg stId base asg copyId path pr).2.patchesOn = pr.2.patchesOn := by
  simp only [finalizeWrap]
  cases path <;> (repeat' split) <;> simp

@[simp] lemma finalizeWrap_revoked (cfg : Config) (stId : Nat) (base : DNode)
    (asg : List (String × Bool)) (copyId : Nat) (path : Option (List String))
    (pr : List (String × DNode) × Effects) :
    (finalizeWrap cfg stId base asg copyId path pr).2.revoked = pr.2.revoked := by
  simp only [finalizeWrap]
  cases path <;> (repeat' split) <;> simp

@[simp] lemma finalizeWrap_listenerCalls (cfg : Config) (stId : Nat) (base : DNode)
    (asg : List (String × Bool)) (copyId : Nat) (path : Option (List String))
    (pr : List (String × DNode) × Effects) :
    (finalizeWrap cfg stId base asg copyId path pr).2.listenerCalls = pr.2.listenerCalls := by
  simp only [finalizeWrap]
  cases path <;> (repeat' split) <;> simp

@[simp] lemma finalizeWrap_canAutoFreeze (cfg : Config) (stId : Nat) (base : DNode)
    (asg : List (String × Bool)) (copyId : Nat) (path : Option (List String))
    (pr : List (String × DNode) × Effects) :
    (finalizeWrap cfg stId base asg copyId path pr).2.canAutoFreeze = pr.2.canAutoFreeze := by
  simp only [finalizeWrap]
  cases path <;> (repeat' split) <;> simp

@[simp] lemma finalizeWrap_patches_none (cfg : Config) (stId : Nat) (base : DNode)
    (asg : List (String × Bool)) (copyId : Nat)
    (pr : List (String × DNode) × Effects) :
    (finalizeWrap cfg stId base asg copyId none pr).2.patches = pr.2.patches := by
  simp only [finalizeWrap]
  (repeat' split) <;> simp

@[simp] lemma finalizeWrap_inversePatches_none (cfg : Config) (stId : Nat) (base : DNode)
    (asg : List (String × Bool)) (copyId : Nat)
    (pr : List (String × DNode) × Effects) :
    (finalizeWrap cfg stId base asg copyId none pr).2.inversePatches = pr.2.inversePatches := by
  simp only [finalizeWrap]
  (repeat' split) <;> simp

lemma finalizeWrap_stable (cfg : Config) (stId : Nat) (base : DNode)
    (asg : List (String × Bool)) (copyId : Nat) (path : Option (List String))
    (pr : List (String × DNode) × Effects) :
    stablePart pr.2 (finalizeWrap cfg stId base asg copyId path pr).2 :=
  ⟨by simp, by simp, by simp, fun h => by simp [h]⟩

/-- The copy built by `finalizeWrap` is frozen exactly when `autoFreeze` is
configured and no foreign draft disabled freezing during the walk. -/
lemma finalizeWrap_frozen (cfg : Config) (stId : Nat) (base : DNode)
    (asg : List (String × Bool)) (copyId : Nat) (path : Option (List String))
    (pr : List (String × DNode) × Effects) :
    isFrozenNode (finalizeWrap cfg stId base asg copyId path pr).1 =
      (cfg.autoFreeze && pr.2.canAutoFreeze) := by
  simp only [finalizeWrap, isFrozenNode]
  (repeat' split) <;> simp

/-- Combined invariant of the finalizer, by induction on fuel: a successful
run preserves the stable effect fields, and when no patch path is active
(`path = none` for `finalize`, `needPatches = false` for the property walk)
the patch accumulators are returned untouched. -/
theorem effInvAll (cfg : Config) (sid : Nat) : ∀ fuel : Nat,
    (∀ d path eff r eff', finalize cfg sid fuel d path eff = Except.ok (r, eff') →
      stablePart eff eff' ∧
        (path = none → eff'.patches = eff.patches ∧ eff'.inversePatches = eff.inversePatches)) ∧
    (∀ stOpt pid rp np fs eff fs2 eff',
      finalizeTree cfg sid fuel stOpt pid rp np fs eff = Except.ok (fs2, eff') →
      stablePart eff eff' ∧
        (np = false → eff'.patches = eff.patches ∧ eff'.inversePatches = eff.inversePatches)) ∧
    (∀ stOpt rp np prop value eff v2 eff' fire,
      finalizeStep cfg sid fuel stOpt rp np prop value eff = Except.ok (v2, eff', fire) →
      stablePart eff eff' ∧
        (np = false → eff'.patches = eff.patches ∧ eff'.inversePatches = eff.inversePatches)) ∧
    (∀ v eff r eff' fire, finalizeScan cfg sid fuel v eff = Except.ok (r, eff', fire) →
      stablePart eff eff' ∧
        eff'.patches = eff.patches ∧ eff'.inversePatches = eff.inversePatches) := by
  intro fuel
  induction fuel with
  | zero =>
    refine ⟨?_, ?_, ?_, ?_⟩ <;> intros <;>
      simp_all [finalize, finalizeTree, finalizeStep, finalizeScan]
  | succ f ih =>
    obtain ⟨ihF, ihT, ihStep, ihS⟩ := ih
    have hScan : ∀ v eff r eff' fire,
        finalizeScan cfg sid (f + 1) v eff = Except.ok (r, eff', fire) →
        stablePart eff eff' ∧
          eff'.patches = eff.patches ∧ eff'.inversePatches = eff.inversePatches := by
      intro v eff r eff' fire h
      cases v with
      | prim q =>
        simp only [finalizeScan] at h
        obtain ⟨h1, h2, h3⟩ := by simpa using h
        subst h2; exact ⟨stablePart_refl eff, rfl, rfl⟩
      | draft a b c d e g i j k =>
        simp only [finalizeScan] at h
        obtain ⟨h1, h2, h3⟩ := by simpa using h
        subst h2; exact ⟨stablePart_refl eff, rfl, rfl⟩
      | obj i fr fs =>
        simp only [finalizeScan] at h
        split at h
        · obtain ⟨h1, h2, h3⟩ := by simpa using h
          subst h2; exact ⟨stablePart_refl eff, rfl, rfl⟩
        · split at h
          · exact Except.noConfusion h
          · next fs2 eff2 heq =>
            obtain ⟨h1, h2, h3⟩ := by simpa using h
            subst h2
            have := ihT none i [] false fs eff fs2 eff2 heq
            exact ⟨this.1, this.2 rfl⟩
    have hStep : ∀ stOpt rp np prop value eff v2 eff' fire,
        finalizeStep cfg sid (f + 1) stOpt rp np prop value eff = Except.ok (v2, eff', fire) →
        stablePart eff eff' ∧
          (np = false → eff'.patches = eff.patches ∧ eff'.inversePatches = eff.inversePatches) := by
      intro stOpt rp np prop value eff v2 eff' fire h
      simp only [finalizeStep] at h
      split at h
      · -- value is a draft
        split at h
        · exact Except.noConfusion h
        · next v1 eff1 heq =>
          have hfin := ihF value _ eff v1 eff1 heq
          set E := (if isDraft v1 then {eff1 with canAutoFreeze := false} else eff1) with hE
          have hstab2 : stablePart eff1 E := by
            rw [hE]; split
            · exact ⟨rfl, rfl, rfl, fun _ => rfl⟩
            · exact stablePart_refl eff1
          have hpat2 : E.patches = eff1.patches ∧ E.inversePatches = eff1.inversePatches := by
            rw [hE]; split <;> exact ⟨rfl, rfl⟩
          have hout : eff' = E := by
            split at h <;> (try split at h) <;>
              (injection h with h1
               injection h1 with ha hb
               injection hb with hc hd
               exact hc.symm)
          subst hout
          refine ⟨stablePart_trans hfin.1 hstab2, fun hnp => ?_⟩
          subst hnp
          have hpres : eff1.patches = eff.patches ∧ eff1.inversePatches = eff.inversePatches := by
            cases stOpt with
            | none => exact hfin.2 rfl
            | some st => exact hfin.2 rfl
          exact ⟨hpat2.1.trans hpres.1, hpat2.2.trans hpres.2⟩
      · -- value is not a draft
        split at h
        · -- a direct draft property
          split at h
          · obtain ⟨h1, h2, h3⟩ := by simpa using h
            subst h2; exact ⟨stablePart_refl eff, fun _ => ⟨rfl, rfl⟩⟩
          · have := ihS value eff v2 eff' fire h
            exact ⟨this.1, fun _ => this.2⟩
        · have := ihS value eff v2 eff' fire h
          exact ⟨this.1, fun _ => this.2⟩
    refine ⟨?_, ?_, hStep, hScan⟩
    · -- finalize
      intro d path eff r eff' h
      cases d with
      | prim q =>
        simp only [finalize] at h
        obtain ⟨h1, h2⟩ := by simpa using h
        subst h2; exact ⟨stablePart_refl eff, fun _ => ⟨rfl, rfl⟩⟩
      | obj i fr fs =>
        simp only [finalize] at h
        split at h
        · obtain ⟨h1, h2⟩ := by simpa using h
          subst h2; exact ⟨stablePart_refl eff, fun _ => ⟨rfl, rfl⟩⟩
        · split at h
          · exact Except.noConfusion h
          · next fs2 eff2 heq =>
            obtain ⟨h1, h2⟩ := by simpa using h
            subst h2
            have := ihT none i [] false fs eff fs2 eff2 heq
            exact ⟨this.1, fun _ => this.2 rfl⟩
      | draft stId scp custom fin modif base copyId copyFields assigned =>
        simp only [finalize] at h
        split at h
        · obtain ⟨h1, h2⟩ := by simpa using h
          subst h2; exact ⟨stablePart_refl eff, fun _ => ⟨rfl, rfl⟩⟩
        · split at h
          · obtain ⟨h1, h2⟩ := by simpa using h
            subst h2; exact ⟨stablePart_refl eff, fun _ => ⟨rfl, rfl⟩⟩
          · split at h
            · obtain ⟨h1, h2⟩ := by simpa using h
              subst h2; exact ⟨stablePart_refl eff, fun _ => ⟨rfl, rfl⟩⟩
            · split at h
              · exact Except.noConfusion h
              · next pr heq =>
                injection h with h1
                have hr2 : eff' = (finalizeWrap cfg stId base assigned copyId path pr).2 := by
                  rw [h1]
                have htree := ihT _ _ _ _ _ _ pr.1 pr.2 heq
                subst hr2
                refine ⟨stablePart_trans htree.1
                  (finalizeWrap_stable cfg stId base assigned copyId path pr), fun hnp => ?_⟩
                subst hnp
                have hp := htree.2 (by simp)
                simp [hp.1, hp.2]
    · -- finalizeTreeInv
      intro stOpt pid rp np fs eff fs2 eff' h
      cases fs with
      | nil =>
        simp only [finalizeTree] at h
        obtain ⟨h1, h2⟩ := by simpa using h
        subst h2; exact ⟨stablePart_refl eff, fun _ => ⟨rfl, rfl⟩⟩
      | cons hd tl =>
        obtain ⟨prop, value⟩ := hd
        simp only [finalizeTree] at h
        split at h
        · exact Except.noConfusion h
        · split at h
          · exact Except.noConfusion h
          · next v2 eff2 fire heqS =>
            split at h
            · exact Except.noConfusion h
            · next rest2 eff4 heqT =>
              obtain ⟨h1, h2⟩ := by simpa using h
              subst h2
              have hstep := ihStep _ _ _ _ _ _ _ _ _ heqS
              have htree := ihT _ _ _ _ _ _ _ _ heqT
              refine ⟨stablePart_trans hstep.1 (stablePart_trans
                (applyAssignHook_stable cfg stOpt prop v2 fire eff2) htree.1), fun hnp => ?_⟩
              have hs := hstep.2 hnp
              have ht := htree.2 hnp
              refine ⟨?_, ?_⟩
              · rw [ht.1]; simp [hs.1]
              · rw [ht.2]; simp [hs.2]

/-- A draft owned by a foreign scope is returned by `finalize` unchanged,
with the effects untouched (immer.js lines 170-173). -/
theorem finalize_foreign (cfg : Config) (sid fuel : Nat) (stId scp : Nat)
    (custom fin modif : Bool) (base : DNode) (copyId : Nat)
    (cf : List (String × DNode)) (asg : List (String × Bool))
    (path : Option (List String)) (eff : Effects) (h : (scp != sid) = true) :
    finalize cfg sid (fuel + 1) (DNode.draft stId scp custom fin modif base copyId cf asg)
      path eff =
      Except.ok (DNode.draft stId scp custom fin modif base copyId cf asg, eff) := by
  simp [finalize, h]

/-- A property list containing a value identical to the parent object never
finalizes successfully: the walk stops with an error at or before that
property. -/
theorem treeCycleNeverOk (cfg : Config) (sid : Nat) : ∀ fuel : Nat,
    ∀ (stOpt : Option StInfo) (pid : Nat) (rp : List String) (np : Bool)
      (pre : List (String × DNode)) (prop : String) (v : DNode)
      (post : List (String × DNode)) (eff : Effects)
      (out : List (String × DNode) × Effects),
    isSameRef v pid = true →
    finalizeTree cfg sid fuel stOpt pid rp np (pre ++ (prop, v) :: post) eff ≠
      Except.ok out := by
  intro fuel
  induction fuel with
  | zero =>
    intro stOpt pid rp np pre prop v post eff out hsame h
    simp [finalizeTree] at h
  | succ f ih =>
    intro stOpt pid rp np pre prop v post eff out hsame h
    cases pre with
    | nil =>
      rw [List.nil_append] at h
      simp [finalizeTree, hsame] at h
    | cons hd pre2 =>
      obtain ⟨q, w⟩ := hd
      rw [List.cons_append] at h
      simp only [finalizeTree] at h
      split at h
      · exact Except.noConfusion h
      · split at h
        · exact Except.noConfusion h
        · next v2 eff2 fire heqS =>
          split at h
          · exact Except.noConfusion h
          · next rest2 eff4 heqT =>
            exact ih _ _ _ _ pre2 prop v post _ _ hsame heqT

/-- `finalizeStep` on a draft from a foreign scope clears `canAutoFreeze`
(immer.js lines 249-252: the draft survives finalization, so freezing must
be disabled). -/
theorem stepForeignKillsFreeze (cfg : Config) (sid fuel : Nat)
    (stOpt : Option StInfo) (rp : List String) (np : Bool) (prop : String)
    (dId dScp : Nat) (dc dfin dm : Bool) (db : DNode) (dcid : Nat)
    (dcf : List (String × DNode)) (dasg : List (String × Bool)) (eff : Effects)
    (v2 : DNode) (eff' : Effects) (fire : Bool)
    (hfor : (dScp != sid) = true)
    (h : finalizeStep cfg sid fuel stOpt rp np prop
      (DNode.draft dId dScp dc dfin dm db dcid dcf dasg) eff = Except.ok (v2, eff', fire)) :
    eff'.canAutoFreeze = false := by
  match fuel with
  | 0 => exact absurd h (by simp [finalizeStep])
  | 1 =>
    rw [show finalizeStep cfg sid 1 stOpt rp np prop
        (DNode.draft dId dScp dc dfin dm db dcid dcf dasg) eff =
        Except.error ImmerErr.outOfFuel from by
      simp [finalizeStep, isDraft]
      rfl] at h
    exact Except.noConfusion h
  | g2 + 2 =>
    have hfz := finalize_foreign cfg sid g2 dId dScp dc dfin dm db dcid dcf dasg
    cases stOpt with
    | none =>
      rw [show finalizeStep cfg sid (g2 + 2) none rp np prop
          (DNode.draft dId dScp dc dfin dm db dcid dcf dasg) eff =
          Except.ok (DNode.draft dId dScp dc dfin dm db dcid dcf dasg,
            {eff with canAutoFreeze := false}, true) from by
        simp [finalizeStep, isDraft, hfz none eff hfor]] at h
      injection h with h1
      injection h1 with ha hb
      injection hb with hc hd
      rw [← hc]
    | some st =>
      by_cases hj : jsIs (DNode.draft dId dScp dc dfin dm db dcid dcf dasg)
          (baseProp st.base prop) = true
      · rw [show finalizeStep cfg sid (g2 + 2) (some st) rp np prop
            (DNode.draft dId dScp dc dfin dm db dcid dcf dasg) eff =
            Except.ok (DNode.draft dId dScp dc dfin dm db dcid dcf dasg,
              {eff with canAutoFreeze := false}, false) from by
          simp [finalizeStep, isDraft, hfz _ eff hfor, hj]] at h
        injection h with h1
        injection h1 with ha hb
        injection hb with hc hd
        rw [← hc]
      · rw [show finalizeStep cfg sid (g2 + 2) (some st) rp np prop
            (DNode.draft dId dScp dc dfin dm db dcid dcf dasg) eff =
            Except.ok (DNode.draft dId dScp dc dfin dm db dcid dcf dasg,
              {eff with canAutoFreeze := false}, true) from by
          simp [finalizeStep, isDraft, hfz _ eff hfor, hj]] at h
        injection h with h1
        injection h1 with ha hb
        injection hb with hc hd
        rw [← hc]

/-- A direct property holding a draft from a foreign scope forces
`canAutoFreeze := false` on any successful walk of the containing node. -/
theorem treeForeignKillsFreeze (cfg : Config) (sid : Nat) : ∀ fuel : Nat,
    ∀ (stOpt : Option StInfo) (pid : Nat) (rp : List String) (np : Bool)
      (pre : List (String × DNode)) (prop : String)
      (dId dScp : Nat) (dc dfin dm : Bool) (db : DNode) (dcid : Nat)
      (dcf : List (String × DNode)) (dasg : List (String × Bool))
      (post : List (String × DNode)) (eff : Effects)
      (fs2 : List (String × DNode)) (eff' : Effects),
    (dScp != sid) = true →
    finalizeTree cfg sid fuel stOpt pid rp np
      (pre ++ (prop, DNode.draft dId dScp dc dfin dm db dcid dcf dasg) :: post) eff =
      Except.ok (fs2, eff') →
    eff'.canAutoFreeze = false := by
  intro fuel
  induction fuel with
  | zero =>
    intro stOpt pid rp np pre prop dId dScp dc dfin dm db dcid dcf dasg post eff fs2 eff' hfor h
    simp [finalizeTree] at h
  | succ f ih =>
    intro stOpt pid rp np pre prop dId dScp dc dfin dm db dcid dcf dasg post eff fs2 eff' hfor h
    cases pre with
    | nil =>
      rw [List.nil_append] at h
      simp only [finalizeTree] at h
      split at h
      · exact Except.noConfusion h
      · split at h
        · exact Except.noConfusion h
        · next v2 eff2 fire heqS =>
          split at h
          · exact Except.noConfusion h
          · next rest2 eff4 heqT =>
            have h2 := stepForeignKillsFreeze cfg sid f stOpt rp np prop
              dId dScp dc dfin dm db dcid dcf dasg eff v2 eff2 fire hfor heqS
            have h3 : (applyAssignHook cfg stOpt prop v2 fire eff2).canAutoFreeze = false := by
              simp [h2]
            have h4 := ((effInvAll cfg sid f).2.1 _ _ _ _ _ _ _ _ heqT).1.2.2.2 h3
            injection h with h1
            injection h1 with ha hb
            rw [← hb]
            exact h4
    | cons hd pre2 =>
      obtain ⟨q, w⟩ := hd
      rw [List.cons_append] at h
      simp only [finalizeTree] at h
      split at h
      · exact Except.noConfusion h
      · split at h
        · exact Except.noConfusion h
        · next v2 eff2 fire heqS =>
          split at h
          · exact Except.noConfusion h
          · next rest2 eff4 heqT =>
            have h4 := ih _ _ _ _ pre2 prop dId dScp dc dfin dm db dcid dcf dasg post _ _ _ hfor heqT
            injection h with h1
            injection h1 with ha hb
            rw [← hb]
            exact h4

/-- A patch whose path strictly extends `pth`: it addresses a location
strictly below `pth`, never `pth` itself nor anything outside it. -/
def extendsPath (pth : List String) (pa : Patch) : Prop :=
  ∃ rest, rest ≠ [] ∧ pa.path = pth ++ rest

/-- Between two effect records: the patch accumulators of `b` are those of
`a` followed by new entries whose paths all strictly extend `pth`. -/
def patchesExtend (pth : List String) (a b : Effects) : Prop :=
  ∃ nps nis, b.patches = a.patches ++ nps ∧ b.inversePatches = a.inversePatches ++ nis ∧
    (∀ pa ∈ nps, extendsPath pth pa) ∧ (∀ pa ∈ nis, extendsPath pth pa)

lemma patchesExtend_of_eq {pth : List String} {a b : Effects}
    (h1 : b.patches = a.patches) (h2 : b.inversePatches = a.inversePatches) :
    patchesExtend pth a b :=
  ⟨[], [], by simp [h1], by simp [h2], by simp, by simp⟩

lemma patchesExtend_trans {pth : List String} {a b c : Effects}
    (h1 : patchesExtend pth a b) (h2 : patchesExtend pth b c) :
    patchesExtend pth a c := by
  obtain ⟨n1, m1, e1, f1, g1, k1⟩ := h1
  obtain ⟨n2, m2, e2, f2, g2, k2⟩ := h2
  refine ⟨n1 ++ n2, m1 ++ m2, ?_, ?_, ?_, ?_⟩
  · rw [e2, e1, List.append_assoc]
  · rw [f2, f1, List.append_assoc]
  · intro pa hpa
    rcases List.mem_append.mp hpa with hm | hm
    · exact g1 pa hm
    · exact g2 pa hm
  · intro pa hpa
    rcases List.mem_append.mp hpa with hm | hm
    · exact k1 pa hm
    · exact k2 pa hm

/-- Anything strictly below `pth ++ [prop]` is also strictly below `pth`. -/
lemma patchesExtend_mono {pth : List String} {prop : String} {a b : Effects}
    (h : patchesExtend (pth ++ [prop]) a b) : patchesExtend pth a b := by
  obtain ⟨n1, m1, e1, f1, g1, k1⟩ := h
  refine ⟨n1, m1, e1, f1, ?_, ?_⟩
  · intro pa hpa
    obtain ⟨rest, hr, hp⟩ := g1 pa hpa
    exact ⟨[prop] ++ rest, by simp, by rw [hp, List.append_assoc]⟩
  · intro pa hpa
    obtain ⟨rest, hr, hp⟩ := k1 pa hpa
    exact ⟨[prop] ++ rest, by simp, by rw [hp, List.append_assoc]⟩

lemma patchForKey_path (st : StInfo) (fs2 : List (String × DNode))
    (pth : List String) (e : String × Bool) :
    (patchForKey st fs2 pth e).path = pth ++ [e.1] := by
  simp only [patchForKey]
  (repeat' split) <;> rfl

lemma inversePatchForKey_path (st : StInfo) (pth : List String) (e : String × Bool) :
    (inversePatchForKey st pth e).path = pth ++ [e.1] := by
  simp only [inversePatchForKey]
  (repeat' split) <;> rfl

lemma genPatchesMap_foldl (st : StInfo) (fs2 : List (String × DNode))
    (pth : List String) : ∀ (l : List (String × Bool)) (ps qs : List Patch),
    l.foldl
      (fun (acc : List Patch × List Patch) (e : String × Bool) =>
        (acc.1 ++ [patchForKey st fs2 pth e], acc.2 ++ [inversePatchForKey st pth e]))
      (ps, qs) =
      (ps ++ l.map (patchForKey st fs2 pth), qs ++ l.map (inversePatchForKey st pth)) := by
  intro l
  induction l with
  | nil => intro ps qs; simp
  | cons e tl ih => intro ps qs; simp [List.foldl_cons, ih]

/-- Closed form of the spec-modelled `generatePatches`: exactly one forward
and one inverse patch per entry of the node's `assigned` map are appended,
in order; keys absent from `assigned` contribute nothing. -/
lemma genPatchesMap_spec (st : StInfo) (fs2 : List (String × DNode))
    (pth : List String) (eff : Effects) :
    (genPatchesMap st fs2 pth eff).patches =
        eff.patches ++ st.assigned.map (patchForKey st fs2 pth) ∧
      (genPatchesMap st fs2 pth eff).inversePatches =
        eff.inversePatches ++ st.assigned.map (inversePatchForKey st pth) := by
  constructor <;> simp [genPatchesMap, genPatchesMap_foldl]

/-- The patches a node records for itself all sit at its own path extended
by one assigned key. -/
lemma genPatchesMap_extend (st : StInfo) (fs2 : List (String × DNode))
    (pth : List String) (eff : Effects) :
    patchesExtend pth eff (genPatchesMap st fs2 pth eff) := by
  obtain ⟨h1, h2⟩ := genPatchesMap_spec st fs2 pth eff
  refine ⟨_, _, h1, h2, ?_, ?_⟩
  · intro pa hpa
    obtain ⟨e, he, hpe⟩ := List.mem_map.mp hpa
    exact ⟨[e.1], by simp, by rw [← hpe, patchForKey_path]⟩
  · intro pa hpa
    obtain ⟨e, he, hpe⟩ := List.mem_map.mp hpa
    exact ⟨[e.1], by simp, by rw [← hpe, inversePatchForKey_path]⟩

/-- The wrap-up of a finalized node only adds patches strictly below the
node's own path (its `generatePatches` run over the `assigned` map). -/
lemma finalizeWrap_extend (cfg : Config) (stId : Nat) (base : DNode)
    (asg : List (String × Bool)) (copyId : Nat) (pth : List String)
    (pr : List (String × DNode) × Effects) :
    patchesExtend pth pr.2 (finalizeWrap cfg stId base asg copyId (some pth) pr).2 := by
  have hX : ∀ b : Effects, b.patches = pr.2.patches → b.inversePatches = pr.2.inversePatches →
      patchesExtend pth pr.2
        (if b.patchesOn = true then genPatchesMap ⟨stId, base, asg⟩ pr.1 pth b else b) := by
    intro b h1 h2
    split
    · exact patchesExtend_trans (patchesExtend_of_eq h1 h2)
        (genPatchesMap_extend ⟨stId, base, asg⟩ pr.1 pth b)
    · exact patchesExtend_of_eq h1 h2
  simp only [finalizeWrap]
  apply hX
  · by_cases hd : cfg.useOnDelete <;> by_cases hcp : cfg.useOnCopy <;> simp [hd, hcp]
  · by_cases hd : cfg.useOnDelete <;> by_cases hcp : cfg.useOnCopy <;> simp [hd, hcp]

/-- `finalizeScan` always reports a changed value (`fire = true`) and never
changes which object its result denotes: the returned node has the same
identity class as the input (same scalar, same object id, same draft). -/
lemma finalizeScan_keepsRef (cfg : Config) (sid : Nat) : ∀ (fuel : Nat) (v : DNode)
    (eff : Effects) (r : DNode) (eff' : Effects) (fire : Bool),
    finalizeScan cfg sid fuel v eff = Except.ok (r, eff', fire) →
    fire = true ∧ ∀ w, jsIs r w = jsIs v w := by
  intro fuel v eff r eff' fire h
  match fuel, v with
  | 0, _ => exact absurd h (by simp [finalizeScan])
  | f + 1, DNode.prim q =>
    simp only [finalizeScan] at h
    obtain ⟨h1, h2, h3⟩ := by simpa using h
    subst h1
    exact ⟨h3, fun w => rfl⟩
  | f + 1, DNode.draft a b c d e g i j k =>
    simp only [finalizeScan] at h
    obtain ⟨h1, h2, h3⟩ := by simpa using h
    subst h1
    exact ⟨h3, fun w => rfl⟩
  | f + 1, DNode.obj i fr fs =>
    simp only [finalizeScan] at h
    split at h
    · obtain ⟨h1, h2, h3⟩ := by simpa using h
      subst h1
      exact ⟨h3, fun w => rfl⟩
    · split at h
      · exact Except.noConfusion h
      · next fs2 eff2 heq =>
        obtain ⟨h1, h2, h3⟩ := by simpa using h
        subst h1
        refine ⟨h3, fun w => ?_⟩
        cases w <;> rfl

/-- Patch-path invariant of the finalizer, by induction on fuel: every
patch recorded during a successful `finalize` at path `pth` sits strictly
below `pth`; for the property walk and the per-property step, strictly
below the node path `rp`.  In particular no node ever records a patch at
its own path, and a finalized child never records a patch at the parent's
level. -/
theorem patchPathsExtend (cfg : Config) (sid : Nat) : ∀ fuel : Nat,
    (∀ d pth eff r eff', finalize cfg sid fuel d (some pth) eff = Except.ok (r, eff') →
      patchesExtend pth eff eff') ∧
    (∀ stOpt pid rp np fs eff fs2 eff',
      finalizeTree cfg sid fuel stOpt pid rp np fs eff = Except.ok (fs2, eff') →
      patchesExtend rp eff eff') ∧
    (∀ stOpt rp np prop value eff v2 eff' fire,
      finalizeStep cfg sid fuel stOpt rp np prop value eff = Except.ok (v2, eff', fire) →
      patchesExtend rp eff eff') := by
  intro fuel
  induction fuel with
  | zero =>
    refine ⟨?_, ?_, ?_⟩ <;> intros <;>
      simp_all [finalize, finalizeTree, finalizeStep]
  | succ f ih =>
    obtain ⟨ihF, ihT, ihStep⟩ := ih
    have hStep : ∀ stOpt rp np prop value eff v2 eff' fire,
        finalizeStep cfg sid (f + 1) stOpt rp np prop value eff = Except.ok (v2, eff', fire) →
        patchesExtend rp eff eff' := by
      intro stOpt rp np prop value eff v2 eff' fire h
      cases stOpt with
      | none =>
        simp only [finalizeStep] at h
        split at h
        · split at h
          · exact Except.noConfusion h
          · next v1 eff1 heq =>
            have hpres := ((effInvAll cfg sid f).1 value _ eff v1 eff1 heq).2 rfl
            injection h with h1
            injection h1 with ha hb
            injection hb with hc hd
            have hEp : eff'.patches = eff1.patches ∧ eff'.inversePatches = eff1.inversePatches := by
              rw [← hc]; split <;> exact ⟨rfl, rfl⟩
            exact patchesExtend_of_eq (hEp.1.trans hpres.1) (hEp.2.trans hpres.2)
        · have hscan := (effInvAll cfg sid f).2.2.2 value eff v2 eff' fire h
          exact patchesExtend_of_eq hscan.2.1 hscan.2.2
      | some st =>
        simp only [finalizeStep] at h
        split at h
        · split at h
          · exact Except.noConfusion h
          · next v1 eff1 heq =>
            set E := (if isDraft v1 then {eff1 with canAutoFreeze := false} else eff1) with hE
            have hEp : E.patches = eff1.patches ∧ E.inversePatches = eff1.inversePatches := by
              rw [hE]; split <;> exact ⟨rfl, rfl⟩
            have hout : eff' = E := by
              split at h <;>
                (injection h with h1
                 injection h1 with ha hb
                 injection hb with hc hd
                 exact hc.symm)
            subst hout
            by_cases hcp : (np && !((lookupAssigned st.assigned prop).getD false)) = true
            · rw [if_pos hcp] at heq
              have hext := ihF value (rp ++ [prop]) eff v1 eff1 heq
              exact patchesExtend_trans (patchesExtend_mono hext)
                (patchesExtend_of_eq hEp.1 hEp.2)
            · rw [if_neg hcp] at heq
              have hpres := ((effInvAll cfg sid f).1 value none eff v1 eff1 heq).2 rfl
              exact patchesExtend_of_eq (hEp.1.trans hpres.1) (hEp.2.trans hpres.2)
        · split at h
          · injection h with h1
            injection h1 with ha hb
            injection hb with hc hd
            exact patchesExtend_of_eq (by rw [← hc]) (by rw [← hc])
          · have hscan := (effInvAll cfg sid f).2.2.2 value eff v2 eff' fire h
            exact patchesExtend_of_eq hscan.2.1 hscan.2.2
    have hTree : ∀ stOpt pid rp np fs eff fs2 eff',
        finalizeTree cfg sid (f + 1) stOpt pid rp np fs eff = Except.ok (fs2, eff') →
        patchesExtend rp eff eff' := by
      intro stOpt pid rp np fs eff fs2 eff' h
      cases fs with
      | nil =>
        simp only [finalizeTree] at h
        obtain ⟨h1, h2⟩ := by simpa using h
        exact patchesExtend_of_eq (by rw [← h2]) (by rw [← h2])
      | cons hd tl =>
        obtain ⟨prop, value⟩ := hd
        simp only [finalizeTree] at h
        split at h
        · exact Except.noConfusion h
        · split at h
          · exact Except.noConfusion h
          · next v2 eff2 fire heqS =>
            split at h
            · exact Except.noConfusion h
            · next rest2 eff4 heqT =>
              have h1 := ihStep _ _ _ _ _ _ _ _ _ heqS
              have hhook : patchesExtend rp eff2 (applyAssignHook cfg stOpt prop v2 fire eff2) :=
                patchesExtend_of_eq (applyAssignHook_patches cfg stOpt prop v2 fire eff2)
                  (applyAssignHook_inversePatches cfg stOpt prop v2 fire eff2)
              have h2 := ihT _ _ _ _ _ _ _ _ heqT
              injection h with hh1
              injection hh1 with ha hb
              exact hb ▸ patchesExtend_trans h1 (patchesExtend_trans hhook h2)
    refine ⟨?_, hTree, hStep⟩
    intro d pth eff r eff' h
    cases d with
    | prim q =>
      simp only [finalize] at h
      obtain ⟨h1, h2⟩ := by simpa using h
      exact patchesExtend_of_eq (by rw [← h2]) (by rw [← h2])
    | obj i fr fs =>
      simp only [finalize] at h
      split at h
      · obtain ⟨h1, h2⟩ := by simpa using h
        exact patchesExtend_of_eq (by rw [← h2]) (by rw [← h2])
      · split at h
        · exact Except.noConfusion h
        · next fs2 eff2 heq =>
          have hpres := ((effInvAll cfg sid f).2.1 none i [] false fs eff fs2 eff2 heq).2 rfl
          obtain ⟨h1, h2⟩ := by simpa using h
          refine patchesExtend_of_eq ?_ ?_
          · rw [← h2]; exact hpres.1
          · rw [← h2]; exact hpres.2
    | draft stId scp custom fin modif base copyId copyFields assigned =>
      simp only [finalize] at h
      split at h
      · obtain ⟨h1, h2⟩ := by simpa using h
        exact patchesExtend_of_eq (by rw [← h2]) (by rw [← h2])
      · split at h
        · obtain ⟨h1, h2⟩ := by simpa using h
          exact patchesExtend_of_eq (by rw [← h2]) (by rw [← h2])
        · split at h
          · obtain ⟨h1, h2⟩ := by simpa using h
            exact patchesExtend_of_eq (by rw [← h2]) (by rw [← h2])
          · split at h
            · exact Except.noConfusion h
            · next pr heq =>
              have h1 : patchesExtend pth eff pr.2 := ihT _ _ _ _ _ _ pr.1 pr.2 heq
              have h2 := finalizeWrap_extend cfg stId base assigned copyId pth pr
              injection h with hh1
              have hr2 : eff' = (finalizeWrap cfg stId base assigned copyId (some pth) pr).2 := by
                rw [hh1]
              subst hr2
              exact patchesExtend_trans h1 h2

/-- A sample hookless configuration with auto-freeze disabled. -/
def cfg0 : Config := ⟨false, false, false, false⟩

/-- C2: for every failure of an update (a synchronous recipe raising, or an
asynchronous recipe's future rejecting — both routed through the same
failure handling, immer.js lines 60-68 and 69-79), the owning scope is
revoked before the error reaches the caller, no patches are emitted to the
listener, and no partial result escapes (the outcome is the re-raised
error, never a value). -/
theorem c2_failure_revokes_scope_no_patches (cfg : Config) (sid fuel : Nat)
    (rootAfter : DNode) (e : JSPrim) (hasListener : Bool) :
    (produceDraftable cfg sid fuel rootAfter (Except.error e) hasListener).1 =
        Except.error (ImmerErr.thrown e) ∧
      (produceDraftable cfg sid fuel rootAfter (Except.error e) hasListener).2.revoked = true ∧
      (produceDraftable cfg sid fuel rootAfter (Except.error e) hasListener).2.listenerCalls = [] ∧
      (produceDraftable cfg sid fuel rootAfter (Except.error e) hasListener).2.patches = [] :=
  ⟨rfl, rfl, rfl, rfl⟩

/-- C3: a recipe that modified its draft and returned a value distinct from
the draft and from `undefined` makes the update fail with the DoubleReturn
error, with the scope revoked before the error surfaces and no result and
no patches produced (immer.js lines 126-132). -/
theorem c3_double_return_fails (cfg : Config) (sid fuel : Nat) (stId : Nat)
    (custom fin : Bool) (base : DNode) (copyId : Nat)
    (cf : List (String × DNode)) (asg : List (String × Bool))
    (result : DNode) (hasListener : Bool)
    (hU : isUndef result = false)
    (hI : jsIs result (DNode.draft stId sid custom fin true base copyId cf asg) = false) :
    produceDraftable cfg sid fuel (DNode.draft stId sid custom fin true base copyId cf asg)
        (Except.ok result) hasListener =
      (Except.error ImmerErr.doubleReturn, {patchesOn := hasListener, revoked := true}) := by
  simp [produceDraftable, processResult, hU, hI, draftModified]

theorem c3_double_return_fails_witness :
    produceDraftable cfg0 1 5
        (DNode.draft 0 1 false false true (DNode.obj 1 false [])
          2 [("x", DNode.prim (JSPrim.num 1))] [("x", true)])
        (Except.ok (DNode.prim (JSPrim.num 42))) false =
      (Except.error ImmerErr.doubleReturn, {patchesOn := false, revoked := true}) :=
  c3_double_return_fails cfg0 1 5 0 false false (DNode.obj 1 false []) 2
    [("x", DNode.prim (JSPrim.num 1))] [("x", true)]
    (DNode.prim (JSPrim.num 42)) false rfl rfl

/-- C1 counterexample: the claim as stated quantifies over every recipe;
a recipe that performs no mutation but returns a fresh value (here `42`)
makes `produce` return that value, not the base, so "no mutation implies
the result is reference-identical to the base" fails without a condition
on the recipe's return value. -/
theorem c1_counterexample :
    (produceDraftable cfg0 1 5
        (DNode.draft 0 1 false false false
          (DNode.obj 1 false [("a", DNode.prim (JSPrim.num 1))]) 2 [] [])
        (Except.ok (DNode.prim (JSPrim.num 42))) false).1 =
        Except.ok (DNode.prim (JSPrim.num 42)) ∧
      DNode.prim (JSPrim.num 42) ≠ DNode.obj 1 false [("a", DNode.prim (JSPrim.num 1))] :=
  ⟨rfl, fun h => DNode.noConfusion h⟩

/-- C1 (amended): for every draftable base and every recipe that performs
no mutation (root DraftState not modified) and returns `undefined` or its
own draft, `produce` returns a value reference-identical to the base
(immer.js lines 174-176: an unmodified draft finalizes to `state.base`). -/
theorem c1_no_mutation_returns_base (cfg : Config) (sid f : Nat) (stId : Nat)
    (custom fin : Bool) (base : DNode) (copyId : Nat)
    (cf : List (String × DNode)) (asg : List (String × Bool))
    (r : DNode) (hasListener : Bool)
    (hB : isDraftable base = true)
    (hr : r = DNode.prim JSPrim.undef ∨
      jsIs r (DNode.draft stId sid custom fin false base copyId cf asg) = true) :
    (produceDraftable cfg sid (f + 1)
        (DNode.draft stId sid custom fin false base copyId cf asg)
        (Except.ok r) hasListener).1 = Except.ok base := by
  have hnb : isNothing base = false := by
    cases base with
    | prim q => simp [isDraftable] at hB
    | obj i fr fs => rfl
    | draft a b c d e g i j k => rfl
  cases hr with
  | inl h =>
    subst h
    simp [produceDraftable, processResult, isUndef, finalize, finishUp, hnb]
  | inr h =>
    simp [produceDraftable, processResult, h, finalize, finishUp, hnb]

theorem c1_no_mutation_returns_base_witness :
    (produceDraftable cfg0 1 5
        (DNode.draft 0 1 false false false (DNode.obj 1 false []) 2 [] [])
        (Except.ok (DNode.prim JSPrim.undef)) false).1 =
      Except.ok (DNode.obj 1 false []) :=
  c1_no_mutation_returns_base cfg0 1 4 0 false false (DNode.obj 1 false []) 2 [] []
    (DNode.prim JSPrim.undef) false rfl (Or.inl rfl)

/-- C9 counterexample: for a non-draftable base, a recipe returning the
`NOTHING` sentinel makes `produce` return `undefined`, not the sentinel
itself, so "otherwise the recipe's return value itself is the result" is
false as stated. -/
theorem c9_counterexample :
    produceRaw (DNode.prim (JSPrim.num 0)) (fun _ => Except.ok (DNode.prim JSPrim.nothing)) =
        Except.ok (DNode.prim JSPrim.undef) ∧
      DNode.prim JSPrim.undef ≠ DNode.prim JSPrim.nothing := by
  refine ⟨rfl, fun h => ?_⟩
  injection h with h1
  exact JSPrim.noConfusion h1

/-- C9 (amended): for a non-draftable base, `produce` calls the recipe
directly on the base (no draft, no scope: immer.js lines 83-87); an
exception propagates, `undefined` keeps the base reference-identical, the
`NOTHING` sentinel maps to `undefined`, and any other return value is the
result itself. -/
theorem c9_raw_passthrough (base : DNode) (recipe : DNode → Except JSPrim DNode) :
    (∀ e, recipe base = Except.error e →
      produceRaw base recipe = Except.error (ImmerErr.thrown e)) ∧
    (recipe base = Except.ok (DNode.prim JSPrim.undef) →
      produceRaw base recipe = Except.ok base) ∧
    (recipe base = Except.ok (DNode.prim JSPrim.nothing) →
      produceRaw base recipe = Except.ok (DNode.prim JSPrim.undef)) ∧
    (∀ r, recipe base = Except.ok r → isUndef r = false → isNothing r = false →
      produceRaw base recipe = Except.ok r) := by
  refine ⟨?_, ?_, ?_, ?_⟩
  · intro e h; simp [produceRaw, h]
  · intro h; simp [produceRaw, h, isUndef]
  · intro h; simp [produceRaw, h, isUndef, isNothing]
  · intro r h hU hN; simp [produceRaw, h, hU, hN]

theorem c9_raw_passthrough_witness :
    produceRaw (DNode.prim (JSPrim.num 7)) (fun _ => Except.ok (DNode.prim (JSPrim.num 8))) =
      Except.ok (DNode.prim (JSPrim.num 8)) :=
  (c9_raw_passthrough (DNode.prim (JSPrim.num 7))
    (fun _ => Except.ok (DNode.prim (JSPrim.num 8)))).2.2.2
    (DNode.prim (JSPrim.num 8)) rfl rfl rfl

/-- C10 counterexample: a recipe that modified its draft and also returned
the `NOTHING` sentinel does not make `produce` return `undefined` — the
update fails with DoubleReturn (the sentinel is a value distinct from the
draft and from `undefined`, so immer.js line 126 classifies it as a
replacement), refuting the claim's "for every update". -/
theorem c10_counterexample :
    (produceDraftable cfg0 1 5
        (DNode.draft 0 1 false false true
          (DNode.obj 1 false [("x", DNode.prim (JSPrim.num 1))]) 2
          [("x", DNode.prim (JSPrim.num 2))] [("x", true)])
        (Except.ok (DNode.prim JSPrim.nothing)) false).1 =
        Except.error ImmerErr.doubleReturn ∧
      Except.error ImmerErr.doubleReturn ≠
        (Except.ok (DNode.prim JSPrim.undef) : Except ImmerErr DNode) :=
  ⟨rfl, fun h => Except.noConfusion h⟩

/-- C10 (amended): a recipe that returns the `NOTHING` sentinel without
having modified its draft makes `produce` return `undefined` rather than
the sentinel, for both non-draftable bases (immer.js line 86) and
draftable bases (line 157); a modified draft plus `NOTHING` instead fails
with DoubleReturn (see the counterexample). -/
theorem c10_nothing_yields_undefined :
    (∀ base : DNode,
      produceRaw base (fun _ => Except.ok (DNode.prim JSPrim.nothing)) =
        Except.ok (DNode.prim JSPrim.undef)) ∧
    (∀ (cfg : Config) (sid fuel stId : Nat) (custom fin : Bool) (base : DNode)
      (copyId : Nat) (cf : List (String × DNode)) (asg : List (String × Bool))
      (hasListener : Bool),
      (produceDraftable cfg sid fuel
          (DNode.draft stId sid custom fin false base copyId cf asg)
          (Except.ok (DNode.prim JSPrim.nothing)) hasListener).1 =
        Except.ok (DNode.prim JSPrim.undef)) := by
  constructor
  · intro base; simp [produceRaw, isUndef, isNothing]
  · intro cfg sid fuel stId custom fin base copyId cf asg hasListener
    simp [produceDraftable, processResult, isUndef, jsIs, draftModified, isDraftable,
      finishUp, isNothing]

/-- C7 counterexample: after a first successful `finishDraft` the owning
scope is revoked (`processResult` line 153), so a second `finishDraft` on
the same draft fails with the revoked-draft error — under the
spec-modelled revocation semantics ("a draft is not usable once its scope
is revoked") — not with the dedicated AlreadyFinalized check of line 101,
which is unreachable on this path. -/
theorem c7_counterexample :
    (finishDraft cfg0 5
        (DNode.draft 0 1 true false false (DNode.obj 1 false []) 2 [] [])
        false false).2.revoked = true ∧
      (finishDraft cfg0 5
        (DNode.draft 0 1 true false false (DNode.obj 1 false []) 2 [] [])
        true false).1 = Except.error ImmerErr.revokedDraft ∧
      (finishDraft cfg0 5
        (DNode.draft 0 1 true false false (DNode.obj 1 false []) 2 [] [])
        true false).1 ≠ Except.error ImmerErr.alreadyFinalized := by
  refine ⟨rfl, rfl, fun h => ?_⟩
  injection h with h1
  exact ImmerErr.noConfusion h1

/-- C7 (amended): `finishDraft` raises a fatal error — and produces no
result — on a non-draft argument, on a draft not created by `createDraft`
(no `customDraft` mark), on a draft whose state is already finalized (the
AlreadyFinalized check of line 101), and on any draft whose owning scope
has been revoked, which is how a second call on the same draft presents
(the first successful call revokes the scope; the error is then the
revoked-draft failure rather than AlreadyFinalized). -/
theorem c7_finish_draft_errors (cfg : Config) (fuel : Nat) :
    (∀ (v : DNode) (rv L : Bool), isDraft v = false →
      (finishDraft cfg fuel v rv L).1 = Except.error ImmerErr.notADraft) ∧
    (∀ (stId scp : Nat) (fin modif : Bool) (base : DNode) (copyId : Nat)
      (cf : List (String × DNode)) (asg : List (String × Bool)) (L : Bool),
      (finishDraft cfg fuel (DNode.draft stId scp false fin modif base copyId cf asg)
        false L).1 = Except.error ImmerErr.notCustomDraft) ∧
    (∀ (stId scp : Nat) (c fin modif : Bool) (base : DNode) (copyId : Nat)
      (cf : List (String × DNode)) (asg : List (String × Bool)) (L : Bool),
      (finishDraft cfg fuel (DNode.draft stId scp c fin modif base copyId cf asg)
        true L).1 = Except.error ImmerErr.revokedDraft) ∧
    (∀ (stId scp : Nat) (modif : Bool) (base : DNode) (copyId : Nat)
      (cf : List (String × DNode)) (asg : List (String × Bool)) (L : Bool),
      (finishDraft cfg fuel (DNode.draft stId scp true true modif base copyId cf asg)
        false L).1 = Except.error ImmerErr.alreadyFinalized) ∧
    (∀ (f2 stId sid : Nat) (base : DNode) (copyId : Nat) (L : Bool),
      (finishDraft cfg (f2 + 1) (DNode.draft stId sid true false false base copyId [] [])
        false L).2.revoked = true) := by
  refine ⟨?_, ?_, ?_, ?_, ?_⟩
  · intro v rv L hv
    cases v with
    | prim q => rfl
    | obj i fr fs => rfl
    | draft a b c d e g i j k => simp [isDraft] at hv
  · intro stId scp fin modif base copyId cf asg L
    simp [finishDraft]
  · intro stId scp c fin modif base copyId cf asg L
    simp [finishDraft]
  · intro stId scp modif base copyId cf asg L
    simp [finishDraft]
  · intro f2 stId sid base copyId L
    simp only [finishDraft, Bool.not_true, processResult]
    simp [finalize, finishUp, isUndef, jsIs, draftModified]
    split <;> rfl

theorem c7_finish_draft_errors_witness :
    (finishDraft cfg0 5 (DNode.obj 3 false []) false false).1 =
        Except.error ImmerErr.notADraft ∧
      (finishDraft cfg0 5
        (DNode.draft 0 1 true false false (DNode.obj 1 false []) 2 [] [])
        false false).2.revoked = true :=
  ⟨(c7_finish_draft_errors cfg0 5).1 (DNode.obj 3 false []) false false rfl,
   (c7_finish_draft_errors cfg0 5).2.2.2.2 4 0 1 (DNode.obj 1 false []) 2 false⟩

/-- C5: a draft whose DraftState belongs to a scope different from the one
being finalized is returned by `finalize` unchanged with no effect on the
patch accumulators (immer.js lines 170-173), and any node of the current
scope holding such a foreign draft among its finalized properties ends
with `scope.canAutoFreeze = false` and an unfrozen result copy even when
`autoFreeze` is configured (lines 249-252 and 201-203). -/
theorem c5_foreign_draft_unchanged_no_freeze (cfg : Config) (sid : Nat) :
    (∀ (fuel stId scp : Nat) (custom fin modif : Bool) (base : DNode) (copyId : Nat)
      (cf : List (String × DNode)) (asg : List (String × Bool))
      (path : Option (List String)) (eff : Effects),
      (scp != sid) = true →
      finalize cfg sid (fuel + 1)
          (DNode.draft stId scp custom fin modif base copyId cf asg) path eff =
        Except.ok (DNode.draft stId scp custom fin modif base copyId cf asg, eff)) ∧
    (∀ (fuel stId : Nat) (rc : Bool) (base : DNode) (copyId : Nat)
      (pre : List (String × DNode)) (prop : String)
      (dId dScp : Nat) (dc dfin dm : Bool) (db : DNode) (dcid : Nat)
      (dcf : List (String × DNode)) (dasg : List (String × Bool))
      (post : List (String × DNode)) (asg : List (String × Bool))
      (path : Option (List String)) (eff : Effects) (r : DNode) (eff' : Effects),
      cfg.autoFreeze = true →
      (dScp != sid) = true →
      finalize cfg sid fuel
          (DNode.draft stId sid rc false true base copyId
            (pre ++ (prop, DNode.draft dId dScp dc dfin dm db dcid dcf dasg) :: post) asg)
          path eff =
        Except.ok (r, eff') →
      eff'.canAutoFreeze = false ∧ isFrozenNode r = false) := by
  constructor
  · intro fuel stId scp custom fin modif base copyId cf asg path eff hfor
    exact finalize_foreign cfg sid fuel stId scp custom fin modif base copyId cf asg path eff hfor
  · intro fuel stId rc base copyId pre prop dId dScp dc dfin dm db dcid dcf dasg post asg
      path eff r eff' hAF hfor h
    cases fuel with
    | zero => simp [finalize] at h
    | succ g =>
      simp only [finalize, bne_self_eq_false, Bool.not_true, Bool.false_eq_true,
        if_false, Bool.not_false, if_true] at h
      split at h
      · exact Except.noConfusion h
      · next pr heq =>
        have hcan := treeForeignKillsFreeze cfg sid g _ _ _ _ pre prop
          dId dScp dc dfin dm db dcid dcf dasg post _ pr.1 pr.2 hfor heq
        injection h with h1
        have hr : r = (finalizeWrap cfg stId base asg copyId path pr).1 := by rw [h1]
        have he : eff' = (finalizeWrap cfg stId base asg copyId path pr).2 := by rw [h1]
        subst hr; subst he
        refine ⟨by simp [hcan], ?_⟩
        rw [finalizeWrap_frozen]
        simp [hcan]

theorem c5_foreign_draft_unchanged_no_freeze_witness :
    finalize ⟨true, false, false, false⟩ 1 3
        (DNode.draft 5 9 false false true (DNode.obj 1 false []) 6 [] []) none {} =
        Except.ok (DNode.draft 5 9 false false true (DNode.obj 1 false []) 6 [] [], {}) ∧
      ((⟨false, [], [], false, false, [], [], [], []⟩ : Effects).canAutoFreeze = false ∧
        isFrozenNode (DNode.obj 11 false
          [("q", DNode.draft 5 9 false false true (DNode.obj 1 false []) 6 [] [])]) = false) :=
  ⟨(c5_foreign_draft_unchanged_no_freeze ⟨true, false, false, false⟩ 1).1 2 5 9 false false
      true (DNode.obj 1 false []) 6 [] [] none {} rfl,
   (c5_foreign_draft_unchanged_no_freeze ⟨true, false, false, false⟩ 1).2 5 10 false
      (DNode.obj 12 false []) 11 [] "q" 5 9 false false true (DNode.obj 1 false []) 6 [] []
      [] [] (some []) {}
      (DNode.obj 11 false
        [("q", DNode.draft 5 9 false false true (DNode.obj 1 false []) 6 [] [])])
      (⟨false, [], [], false, false, [], [], [], []⟩ : Effects) rfl rfl rfl⟩

/-- C6: a value assigned as its own direct child — a property value
identical (`===`) to its containing parent object — makes the update fail:
the property walk can never succeed (first conjunct, any position), the
whole `finalize` of such a node can never succeed (third conjunct), and
when the offending property is reached the error is exactly
CyclicReference (second conjunct), raised before any result is visible to
the caller (immer.js lines 232-235). -/
theorem c6_cyclic_reference_fatal (cfg : Config) (sid : Nat) :
    (∀ (fuel : Nat) (stOpt : Option StInfo) (pid : Nat) (rp : List String) (np : Bool)
      (pre : List (String × DNode)) (prop : String) (v : DNode)
      (post : List (String × DNode)) (eff : Effects)
      (out : List (String × DNode) × Effects),
      isSameRef v pid = true →
      finalizeTree cfg sid fuel stOpt pid rp np (pre ++ (prop, v) :: post) eff ≠
        Except.ok out) ∧
    (∀ (fuel stId : Nat) (rc : Bool) (base : DNode) (copyId : Nat) (prop : String)
      (v : DNode) (post : List (String × DNode)) (asg : List (String × Bool)) (L : Bool),
      isSameRef v copyId = true →
      (produceDraftable cfg sid (fuel + 2)
          (DNode.draft stId sid rc false true base copyId ((prop, v) :: post) asg)
          (Except.ok (DNode.prim JSPrim.undef)) L).1 =
        Except.error ImmerErr.cyclicReference) ∧
    (∀ (fuel stId : Nat) (rc : Bool) (base : DNode) (copyId : Nat)
      (pre : List (String × DNode)) (prop : String) (v : DNode)
      (post : List (String × DNode)) (asg : List (String × Bool))
      (path : Option (List String)) (eff : Effects)
      (out : DNode × Effects),
      isSameRef v copyId = true →
      finalize cfg sid fuel
          (DNode.draft stId sid rc false true base copyId (pre ++ (prop, v) :: post) asg)
          path eff ≠ Except.ok out) := by
  refine ⟨treeCycleNeverOk cfg sid, ?_, ?_⟩
  · intro fuel stId rc base copyId prop v post asg L hsame
    have htree : ∀ (g : Nat) (np : Bool) (eff : Effects),
        finalizeTree cfg sid (g + 1) (some ⟨stId, base, asg⟩) copyId [] np
          ((prop, v) :: post) eff = Except.error ImmerErr.cyclicReference := by
      intro g np eff
      simp [finalizeTree, hsame]
    simp [produceDraftable, processResult, isUndef, finalize, htree]
  · intro fuel stId rc base copyId pre prop v post asg path eff out hsame
    cases fuel with
    | zero => intro h; simp [finalize] at h
    | succ g =>
      intro h
      simp only [finalize, bne_self_eq_false, Bool.not_true, Bool.false_eq_true,
        if_false, Bool.not_false, if_true] at h
      split at h
      · exact Except.noConfusion h
      · next pr heq =>
        exact treeCycleNeverOk cfg sid g _ _ _ _ pre prop v post _ pr hsame heq

theorem c6_cyclic_reference_fatal_witness :
    (produceDraftable cfg0 1 5
        (DNode.draft 10 1 false false true (DNode.obj 12 false []) 11
          [("s", DNode.obj 11 false [])] [])
        (Except.ok (DNode.prim JSPrim.undef)) false).1 =
      Except.error ImmerErr.cyclicReference :=
  (c6_cyclic_reference_fatal cfg0 1).2.1 3 10 false (DNode.obj 12 false []) 11 "s"
    (DNode.obj 11 false []) [] [] false rfl

/-- C8: when patch recording is active and the recipe returns a value
distinct from its unmodified draft and from `undefined`, every successful
update emits exactly one forward patch `{replace, [], finalized result}`
and exactly one inverse patch `{replace, [], original base}`, delivers
exactly those to the listener, and nothing else (immer.js lines 128-148:
the replacement is finalized with a null path, which generates no patches
of its own, then the two root patches are pushed). -/
theorem c8_whole_value_replacement_patches (cfg : Config) (sid fuel : Nat)
    (stId : Nat) (custom fin : Bool) (base : DNode) (copyId : Nat)
    (cf : List (String × DNode)) (asg : List (String × Bool))
    (result : DNode) (v : DNode) (eff' : Effects)
    (hU : isUndef result = false)
    (hI : jsIs result (DNode.draft stId sid custom fin false base copyId cf asg) = false)
    (hrun : produceDraftable cfg sid fuel
        (DNode.draft stId sid custom fin false base copyId cf asg)
        (Except.ok result) true = (Except.ok v, eff')) :
    ∃ rv, eff'.patches = [⟨PatchOp.replace, [], some rv⟩] ∧
      eff'.inversePatches = [⟨PatchOp.replace, [], some base⟩] ∧
      eff'.listenerCalls =
        [([⟨PatchOp.replace, [], some rv⟩], [⟨PatchOp.replace, [], some base⟩])] ∧
      v = (if isNothing rv then DNode.prim JSPrim.undef else rv) := by
  simp only [produceDraftable] at hrun
  by_cases hD : isDraftable result = true
  · simp only [processResult, hU, hI, Bool.not_false, Bool.and_self, draftModified,
      Bool.false_eq_true, if_false, if_true, ite_true, eq_self_iff_true, hD,
      draftBase] at hrun
    split at hrun
    · next e heqF =>
      injection hrun with ha hb
      exact absurd ha (by simp)
    · next r eff1 heqF =>
      have hinv1 := (effInvAll cfg sid fuel).1 result none {patchesOn := true} r eff1 heqF
      have hpo : eff1.patchesOn = true := hinv1.1.1
      have hrv : eff1.revoked = false := hinv1.1.2.1
      have hlc : eff1.listenerCalls = [] := hinv1.1.2.2.1
      have hpat : eff1.patches = [] := (hinv1.2 rfl).1
      have hinvp : eff1.inversePatches = [] := (hinv1.2 rfl).2
      refine ⟨r, ?_⟩
      simp only [finishUp, hpo, hpat, hinvp, hlc, hrv, ite_true, eq_self_iff_true,
        List.nil_append] at hrun
      obtain ⟨hv, he⟩ := by simpa using hrun
      subst he
      exact ⟨by simp, by simp, by simp, hv.symm⟩
  · simp only [processResult, hU, hI, Bool.not_false, Bool.and_self, draftModified,
      Bool.false_eq_true, if_false, if_true, ite_true, eq_self_iff_true, hD,
      draftBase, ite_false, Bool.false_and, finishUp, List.nil_append] at hrun
    refine ⟨result, ?_⟩
    obtain ⟨hv, he⟩ := by simpa using hrun
    subst he
    exact ⟨by simp, by simp, by simp, hv.symm⟩

theorem c8_whole_value_replacement_patches_witness :
    ∃ rv,
      (⟨true, [⟨PatchOp.replace, [], some (DNode.obj 7 false [("z", DNode.prim (JSPrim.num 5))])⟩],
        [⟨PatchOp.replace, [], some (DNode.obj 1 false [("a", DNode.prim (JSPrim.num 1))])⟩],
        true, true, [], [], [],
        [([⟨PatchOp.replace, [], some (DNode.obj 7 false [("z", DNode.prim (JSPrim.num 5))])⟩],
          [⟨PatchOp.replace, [], some (DNode.obj 1 false [("a", DNode.prim (JSPrim.num 1))])⟩])]⟩ :
          Effects).patches = [⟨PatchOp.replace, [], some rv⟩] ∧
      (⟨true, [⟨PatchOp.replace, [], some (DNode.obj 7 false [("z", DNode.prim (JSPrim.num 5))])⟩],
        [⟨PatchOp.replace, [], some (DNode.obj 1 false [("a", DNode.prim (JSPrim.num 1))])⟩],
        true, true, [], [], [],
        [([⟨PatchOp.replace, [], some (DNode.obj 7 false [("z", DNode.prim (JSPrim.num 5))])⟩],
          [⟨PatchOp.replace, [], some (DNode.obj 1 false [("a", DNode.prim (JSPrim.num 1))])⟩])]⟩ :
          Effects).inversePatches = [⟨PatchOp.replace, [], some (DNode.obj 1 false [("a", DNode.prim (JSPrim.num 1))])⟩] ∧
      (⟨true, [⟨PatchOp.replace, [], some (DNode.obj 7 false [("z", DNode.prim (JSPrim.num 5))])⟩],
        [⟨PatchOp.replace, [], some (DNode.obj 1 false [("a", DNode.prim (JSPrim.num 1))])⟩],
        true, true, [], [], [],
        [([⟨PatchOp.replace, [], some (DNode.obj 7 false [("z", DNode.prim (JSPrim.num 5))])⟩],
          [⟨PatchOp.replace, [], some (DNode.obj 1 false [("a", DNode.prim (JSPrim.num 1))])⟩])]⟩ :
          Effects).listenerCalls =
        [([⟨PatchOp.replace, [], some rv⟩],
          [⟨PatchOp.replace, [], some (DNode.obj 1 false [("a", DNode.prim (JSPrim.num 1))])⟩])] ∧
      DNode.obj 7 false [("z", DNode.prim (JSPrim.num 5))] =
        (if isNothing rv then DNode.prim JSPrim.undef else rv) :=
  c8_whole_value_replacement_patches cfg0 1 10 0 false false
    (DNode.obj 1 false [("a", DNode.prim (JSPrim.num 1))]) 2 [] []
    (DNode.obj 7 false [("z", DNode.prim (JSPrim.num 5))])
    (DNode.obj 7 false [("z", DNode.prim (JSPrim.num 5))])
    (⟨true, [⟨PatchOp.replace, [], some (DNode.obj 7 false [("z", DNode.prim (JSPrim.num 5))])⟩],
      [⟨PatchOp.replace, [], some (DNode.obj 1 false [("a", DNode.prim (JSPrim.num 1))])⟩],
      true, true, [], [], [],
      [([⟨PatchOp.replace, [], some (DNode.obj 7 false [("z", DNode.prim (JSPrim.num 5))])⟩],
        [⟨PatchOp.replace, [], some (DNode.obj 1 false [("a", DNode.prim (JSPrim.num 1))])⟩])]⟩ :
        Effects)
    rfl rfl rfl

/-- C4: the patch-path coarsening rule, universally over arbitrary nodes,
children, siblings and depths.  (1) With patch recording active
(`needPatches = true`), a child property whose key is absent from (or
deleted in) this node's `assigned` map never records a patch at its own
path `rp ++ [prop]`: every patch its processing appends has a path
strictly below `rp ++ [prop]` — so a child that differs from base only as
a nested modified draft contributes only patches recorded deeper, at
nodes where an explicit assignment occurred (immer.js lines 241-244 plus
the proved path invariant `patchPathsExtend`).  (2) A child whose key
*was* explicitly assigned is finalized with a null path and contributes no
patches at all — its change is recorded at this (coarsest) level instead,
because (3) a node's own `generatePatches` emits exactly one forward and
one inverse patch per entry of its `assigned` map, each at the node's path
extended by the assigned key, and nothing for other keys.  (4) The
per-property walk reports `fire = true` exactly when the finalized value
differs from the base value at that key, and (5) the `onAssign` hook then
fires with this node's state, the key and the new value — per affected
node at every level, independent of where patches were recorded. -/
theorem c4_patch_coarsening :
    (∀ (cfg : Config) (sid fuel : Nat) (st : StInfo) (rp : List String) (prop : String)
      (value : DNode) (eff : Effects) (v2 : DNode) (eff' : Effects) (fire : Bool),
      (lookupAssigned st.assigned prop).getD false = false →
      finalizeStep cfg sid fuel (some st) rp true prop value eff = Except.ok (v2, eff', fire) →
      ∃ nps nis, eff'.patches = eff.patches ++ nps ∧
        eff'.inversePatches = eff.inversePatches ++ nis ∧
        (∀ pa ∈ nps, ∃ rest, rest ≠ [] ∧ pa.path = (rp ++ [prop]) ++ rest) ∧
        (∀ pa ∈ nis, ∃ rest, rest ≠ [] ∧ pa.path = (rp ++ [prop]) ++ rest)) ∧
    (∀ (cfg : Config) (sid fuel : Nat) (st : StInfo) (rp : List String) (np : Bool)
      (prop : String) (value : DNode) (eff : Effects) (v2 : DNode) (eff' : Effects)
      (fire : Bool),
      (lookupAssigned st.assigned prop).getD false = true →
      finalizeStep cfg sid fuel (some st) rp np prop value eff = Except.ok (v2, eff', fire) →
      eff'.patches = eff.patches ∧ eff'.inversePatches = eff.inversePatches) ∧
    (∀ (st : StInfo) (fs2 : List (String × DNode)) (pth : List String) (eff : Effects),
      (genPatchesMap st fs2 pth eff).patches =
          eff.patches ++ st.assigned.map (patchForKey st fs2 pth) ∧
        (genPatchesMap st fs2 pth eff).inversePatches =
          eff.inversePatches ++ st.assigned.map (inversePatchForKey st pth) ∧
        ∀ e : String × Bool, (patchForKey st fs2 pth e).path = pth ++ [e.1] ∧
          (inversePatchForKey st pth e).path = pth ++ [e.1]) ∧
    (∀ (cfg : Config) (sid fuel : Nat) (st : StInfo) (rp : List String) (np : Bool)
      (prop : String) (value : DNode) (eff : Effects) (v2 : DNode) (eff' : Effects)
      (fire : Bool),
      finalizeStep cfg sid fuel (some st) rp np prop value eff = Except.ok (v2, eff', fire) →
      fire = !(jsIs v2 (baseProp st.base prop))) ∧
    (∀ (cfg : Config) (st : StInfo) (prop : String) (v2 : DNode) (eff : Effects),
      cfg.useOnAssign = true →
      (applyAssignHook cfg (some st) prop v2 true eff).assignLog =
        eff.assignLog ++ [(st.stId, prop, v2)]) := by
  refine ⟨?_, ?_, ?_, ?_, ?_⟩
  · -- (1) unassigned child: all recorded patches strictly below rp ++ [prop]
    intro cfg sid fuel st rp prop value eff v2 eff' fire hun h
    match fuel with
    | 0 => exact absurd h (by simp [finalizeStep])
    | f + 1 =>
      simp only [finalizeStep] at h
      split at h
      · split at h
        · exact Except.noConfusion h
        · next v1 eff1 heq =>
          set E := (if isDraft v1 then {eff1 with canAutoFreeze := false} else eff1) with hE
          have hEp : E.patches = eff1.patches ∧ E.inversePatches = eff1.inversePatches := by
            rw [hE]; split <;> exact ⟨rfl, rfl⟩
          have hout : eff' = E := by
            split at h <;>
              (injection h with h1
               injection h1 with ha hb
               injection hb with hc hd
               exact hc.symm)
          subst hout
          have hcp : (true && !((lookupAssigned st.assigned prop).getD false)) = true := by
            rw [hun]; rfl
          rw [if_pos hcp] at heq
          have hext := (patchPathsExtend cfg sid f).1 value (rp ++ [prop]) eff v1 eff1 heq
          exact patchesExtend_trans hext (patchesExtend_of_eq hEp.1 hEp.2)
      · split at h
        · injection h with h1
          injection h1 with ha hb
          injection hb with hc hd
          exact patchesExtend_of_eq (by rw [← hc]) (by rw [← hc])
        · have hscan := (effInvAll cfg sid f).2.2.2 value eff v2 eff' fire h
          exact patchesExtend_of_eq hscan.2.1 hscan.2.2
  · -- (2) assigned child: no patches contributed at all
    intro cfg sid fuel st rp np prop value eff v2 eff' fire hun h
    match fuel with
    | 0 => exact absurd h (by simp [finalizeStep])
    | f + 1 =>
      simp only [finalizeStep] at h
      split at h
      · split at h
        · exact Except.noConfusion h
        · next v1 eff1 heq =>
          set E := (if isDraft v1 then {eff1 with canAutoFreeze := false} else eff1) with hE
          have hEp : E.patches = eff1.patches ∧ E.inversePatches = eff1.inversePatches := by
            rw [hE]; split <;> exact ⟨rfl, rfl⟩
          have hout : eff' = E := by
            split at h <;>
              (injection h with h1
               injection h1 with ha hb
               injection hb with hc hd
               exact hc.symm)
          subst hout
          have hcp : ¬((np && !((lookupAssigned st.assigned prop).getD false)) = true) := by
            rw [hun]; simp
          rw [if_neg hcp] at heq
          have hpres := ((effInvAll cfg sid f).1 value none eff v1 eff1 heq).2 rfl
          exact ⟨hEp.1.trans hpres.1, hEp.2.trans hpres.2⟩
      · split at h
        · injection h with h1
          injection h1 with ha hb
          injection hb with hc hd
          exact ⟨by rw [← hc], by rw [← hc]⟩
        · have hscan := (effInvAll cfg sid f).2.2.2 value eff v2 eff' fire h
          exact ⟨hscan.2.1, hscan.2.2⟩
  · -- (3) a node's own patches: one per assigned entry, at path ++ [key]
    intro st fs2 pth eff
    obtain ⟨h1, h2⟩ := genPatchesMap_spec st fs2 pth eff
    exact ⟨h1, h2, fun e =>
      ⟨patchForKey_path st fs2 pth e, inversePatchForKey_path st pth e⟩⟩
  · -- (4) fire criterion: the value changed at this key
    intro cfg sid fuel st rp np prop value eff v2 eff' fire h
    match fuel with
    | 0 => exact absurd h (by simp [finalizeStep])
    | f + 1 =>
      simp only [finalizeStep] at h
      split at h
      · split at h
        · exact Except.noConfusion h
        · next v1 eff1 heq =>
          set E := (if isDraft v1 then {eff1 with canAutoFreeze := false} else eff1) with hE
          split at h
          · next hjs =>
            injection h with h1
            injection h1 with ha hb
            injection hb with hc hd
            rw [← hd, ← ha, hjs]
            rfl
          · next hjs =>
            have hjs2 : jsIs v1 (baseProp st.base prop) = false := by
              simpa using hjs
            injection h with h1
            injection h1 with ha hb
            injection hb with hc hd
            rw [← hd, ← ha, hjs2]
            rfl
      · split at h
        · next hjs =>
          injection h with h1
          injection h1 with ha hb
          injection hb with hc hd
          rw [← hd, ← ha, hjs]
          rfl
        · next hjs =>
          have hjs2 : jsIs value (baseProp st.base prop) = false := by
            simpa using hjs
          have hkr := finalizeScan_keepsRef cfg sid f value eff v2 eff' fire h
          rw [hkr.1, hkr.2 (baseProp st.base prop), hjs2]
          rfl
  · -- (5) the onAssign hook appends this node's state, key and new value
    intro cfg st prop v2 eff hOn
    simp [applyAssignHook, hOn]

theorem c4_patch_coarsening_witness :
    (∃ nps nis,
      (⟨true, [⟨PatchOp.replace, ["b", "c"], some (DNode.prim (JSPrim.num 3))⟩],
        [⟨PatchOp.replace, ["b", "c"], some (DNode.prim (JSPrim.num 2))⟩],
        true, false, [(20, "c", DNode.prim (JSPrim.num 3))], [], [], []⟩ : Effects).patches =
          ({patchesOn := true} : Effects).patches ++ nps ∧
        (⟨true, [⟨PatchOp.replace, ["b", "c"], some (DNode.prim (JSPrim.num 3))⟩],
          [⟨PatchOp.replace, ["b", "c"], some (DNode.prim (JSPrim.num 2))⟩],
          true, false, [(20, "c", DNode.prim (JSPrim.num 3))], [], [], []⟩ : Effects).inversePatches =
            ({patchesOn := true} : Effects).inversePatches ++ nis ∧
        (∀ pa ∈ nps, ∃ rest, rest ≠ [] ∧ pa.path = (([] : List String) ++ ["b"]) ++ rest) ∧
        (∀ pa ∈ nis, ∃ rest, rest ≠ [] ∧ pa.path = (([] : List String) ++ ["b"]) ++ rest)) ∧
    ((⟨true, [], [], true, false, [(20, "c", DNode.prim (JSPrim.num 3))], [], [], []⟩ :
        Effects).patches = ({patchesOn := true} : Effects).patches ∧
      (⟨true, [], [], true, false, [(20, "c", DNode.prim (JSPrim.num 3))], [], [], []⟩ :
        Effects).inversePatches = ({patchesOn := true} : Effects).inversePatches) ∧
    (true = !(jsIs (DNode.obj 21 false [("c", DNode.prim (JSPrim.num 3))])
      (baseProp (DNode.obj 12 false
        [("b", DNode.obj 22 false [("c", DNode.prim (JSPrim.num 2))])]) "b"))) ∧
    ((applyAssignHook ⟨false, true, false, false⟩
        (some ⟨10, DNode.obj 12 false
          [("b", DNode.obj 22 false [("c", DNode.prim (JSPrim.num 2))])], []⟩)
        "b" (DNode.obj 21 false [("c", DNode.prim (JSPrim.num 3))]) true {}).assignLog =
      ({} : Effects).assignLog ++
        [(10, "b", DNode.obj 21 false [("c", DNode.prim (JSPrim.num 3))])]) :=
  ⟨c4_patch_coarsening.1 ⟨false, true, false, false⟩ 1 8
      ⟨10, DNode.obj 12 false [("b", DNode.obj 22 false [("c", DNode.prim (JSPrim.num 2))])], []⟩
      [] "b"
      (DNode.draft 20 1 false false true
        (DNode.obj 22 false [("c", DNode.prim (JSPrim.num 2))]) 21
        [("c", DNode.prim (JSPrim.num 3))] [("c", true)])
      {patchesOn := true}
      (DNode.obj 21 false [("c", DNode.prim (JSPrim.num 3))])
      (⟨true, [⟨PatchOp.replace, ["b", "c"], some (DNode.prim (JSPrim.num 3))⟩],
        [⟨PatchOp.replace, ["b", "c"], some (DNode.prim (JSPrim.num 2))⟩],
        true, false, [(20, "c", DNode.prim (JSPrim.num 3))], [], [], []⟩ : Effects)
      true rfl rfl,
   c4_patch_coarsening.2.1 ⟨false, true, false, false⟩ 1 8
      ⟨10, DNode.obj 12 false [("b", DNode.obj 22 false [("c", DNode.prim (JSPrim.num 2))])],
        [("b", true)]⟩
      [] true "b"
      (DNode.draft 20 1 false false true
        (DNode.obj 22 false [("c", DNode.prim (JSPrim.num 2))]) 21
        [("c", DNode.prim (JSPrim.num 3))] [("c", true)])
      {patchesOn := true}
      (DNode.obj 21 false [("c", DNode.prim (JSPrim.num 3))])
      (⟨true, [], [], true, false, [(20, "c", DNode.prim (JSPrim.num 3))], [], [], []⟩ : Effects)
      true rfl rfl,
   c4_patch_coarsening.2.2.2.1 ⟨false, true, false, false⟩ 1 8
      ⟨10, DNode.obj 12 false [("b", DNode.obj 22 false [("c", DNode.prim (JSPrim.num 2))])], []⟩
      [] true "b"
      (DNode.draft 20 1 false false true
        (DNode.obj 22 false [("c", DNode.prim (JSPrim.num 2))]) 21
        [("c", DNode.prim (JSPrim.num 3))] [("c", true)])
      {patchesOn := true}
      (DNode.obj 21 false [("c", DNode.prim (JSPrim.num 3))])
      (⟨true, [⟨PatchOp.replace, ["b", "c"], some (DNode.prim (JSPrim.num 3))⟩],
        [⟨PatchOp.replace, ["b", "c"], some (DNode.prim (JSPrim.num 2))⟩],
        true, false, [(20, "c", DNode.prim (JSPrim.num 3))], [], [], []⟩ : Effects)
      true rfl,
   c4_patch_coarsening.2.2.2.2 ⟨false, true, false, false⟩
      ⟨10, DNode.obj 12 false [("b", DNode.obj 22 false [("c", DNode.prim (JSPrim.num 2))])], []⟩
      "b" (DNode.obj 21 false [("c", DNode.prim (JSPrim.num 3))]) {} rfl⟩

end Immer


